import Mathlib

/-!
Verification of the SeeSVi data-analytics core: schema inference and
profiling (`DataOverview` in ChatInterface.tsx), the chart data
transformer (`chartData` in ChartBuilder.tsx), and the CSV
re-serialization utility (`convertToCSV`).

The embedding models JavaScript scalar values as a tagged union, JS
numbers as exact rationals extended with the IEEE special values
(+Infinity, -Infinity, NaN), and the relevant JS primitives
(`Number(...)` coercion, truthiness, `String(...)`, `JSON.stringify`,
`Array.prototype.sort` with a numeric comparator as a stable sort,
`Math.min`/`Math.max`, IEEE-style addition and division).

Rational arithmetic is written with `mkRat`-based operations so that
every definition evaluates by kernel reduction; bridge lemmas identify
them with the standard field operations on `ℚ`.
-/

/-! ### Kernel-computable rational arithmetic -/

/-- Computable addition on `ℚ` (the standard `+` is irreducible). -/
def qAdd (a b : ℚ) : ℚ := mkRat (a.num * b.den + b.num * a.den) (a.den * b.den)

/-- Computable multiplication on `ℚ`. -/
def qMul (a b : ℚ) : ℚ := mkRat (a.num * b.num) (a.den * b.den)

/-- Computable negation on `ℚ`. -/
def qNeg (a : ℚ) : ℚ := mkRat (-a.num) a.den

/-- Computable subtraction on `ℚ`. -/
def qSub (a b : ℚ) : ℚ := qAdd a (qNeg b)

/-- Computable division of a `ℚ` by a natural number. -/
def qDivN (a : ℚ) (n : Nat) : ℚ := mkRat a.num (a.den * n)

/-- Computable multiplication of a `ℚ` by a natural number. -/
def qMulN (a : ℚ) (k : Nat) : ℚ := mkRat (a.num * k) a.den

/-- Computable floor of a `ℚ`. -/
def qFloor (a : ℚ) : Int := Int.fdiv a.num a.den

theorem qAdd_eq (a b : ℚ) : qAdd a b = a + b := (Rat.add_def' a b).symm

theorem qNeg_eq (a : ℚ) : qNeg a = -a := by
  rw [qNeg, Rat.mkRat_eq_div]
  push_cast
  rw [neg_div, Rat.num_div_den]

theorem qSub_eq (a b : ℚ) : qSub a b = a - b := by
  rw [qSub, qAdd_eq, qNeg_eq, sub_eq_add_neg]

theorem qMul_eq (a b : ℚ) : qMul a b = a * b := by
  rw [qMul, Rat.mkRat_eq_div]
  push_cast
  rw [← div_mul_div_comm, Rat.num_div_den, Rat.num_div_den]

theorem qMulN_eq (a : ℚ) (k : Nat) : qMulN a k = a * k := by
  rw [qMulN, Rat.mkRat_eq_div]
  push_cast
  rw [mul_comm, mul_div_assoc, Rat.num_div_den, mul_comm]

theorem qDivN_eq (a : ℚ) (n : Nat) : qDivN a n = a / n := by
  rw [qDivN, Rat.mkRat_eq_div]
  push_cast
  rw [← div_div, Rat.num_div_den]

/-! ### JS values and numbers -/

/-- A JavaScript scalar cell value as delivered by the CSV parser
(dynamic typing: numbers, strings, booleans, null). An absent key
(JS `undefined`) is modelled as `Option.none` at use sites. -/
inductive Value where
  | num (q : ℚ)
  | str (s : String)
  | bool (b : Bool)
  | vnull
deriving DecidableEq, Repr

/-- A JS number: an exact rational or one of the IEEE special values. -/
inductive JSNum where
  | real (q : ℚ)
  | posInf
  | negInf
  | nan
deriving DecidableEq, Repr

/-- A row: an insertion-ordered mapping from column names to values. -/
def Row := List (String × Value)

instance : DecidableEq Row := inferInstanceAs (DecidableEq (List (String × Value)))

/-- JS property read `row[col]`: `none` models `undefined`. -/
def getCol (r : Row) (c : String) : Option Value :=
  (r.find? (fun p => p.1 = c)).map Prod.snd

/-- JS `<` on numbers: any comparison involving NaN is false. -/
def JSNum.lt : JSNum → JSNum → Bool
  | .real p, .real q => decide (p < q)
  | .real _, .posInf => true
  | .negInf, .real _ => true
  | .negInf, .posInf => true
  | _, _ => false

/-- JS `isNaN` on an already-coerced number. -/
def JSNum.isNaNb : JSNum → Bool
  | .nan => true
  | _ => false

/-- JS `+` on numbers. -/
def JSNum.add : JSNum → JSNum → JSNum
  | .nan, _ => .nan
  | _, .nan => .nan
  | .real p, .real q => .real (qAdd p q)
  | .posInf, .negInf => .nan
  | .negInf, .posInf => .nan
  | .posInf, _ => .posInf
  | _, .posInf => .posInf
  | .negInf, _ => .negInf
  | _, .negInf => .negInf

/-- JS division of a number by an array length (a natural number):
`0/0` is NaN, nonzero `q/0` is a signed infinity, infinities survive. -/
def JSNum.divN : JSNum → Nat → JSNum
  | .real q, 0 => if q = 0 then .nan else if 0 < q then .posInf else .negInf
  | .real q, (n+1) => .real (qDivN q (n+1))
  | x, _ => x

/-- JS multiplication of a number by a nonnegative integer constant. -/
def JSNum.mulN : JSNum → Nat → JSNum
  | .real q, k => .real (qMulN q k)
  | .nan, _ => .nan
  | .posInf, k => if k = 0 then .nan else .posInf
  | .negInf, k => if k = 0 then .nan else .negInf

/-- JS `Math.min` of two numbers (NaN-contagious). -/
def JSNum.minJ : JSNum → JSNum → JSNum
  | .nan, _ => .nan
  | _, .nan => .nan
  | a, b => if JSNum.lt b a then b else a

/-- JS `Math.max` of two numbers (NaN-contagious). -/
def JSNum.maxJ : JSNum → JSNum → JSNum
  | .nan, _ => .nan
  | _, .nan => .nan
  | a, b => if JSNum.lt a b then b else a

/-- `arr.reduce((sum, val) => sum + val, 0)` over JS numbers. -/
def sumJS (l : List JSNum) : JSNum := l.foldl JSNum.add (.real 0)

/-! ### The JS `Number(...)` string-to-number coercion -/

def isWSCh (c : Char) : Bool :=
  c = ' ' || c = '\t' || c = '\n' || c = '\r' || c = '\x0b' || c = '\x0c'

def trimWS (cs : List Char) : List Char :=
  ((cs.dropWhile isWSCh).reverse.dropWhile isWSCh).reverse

def isDigitCh (c : Char) : Bool := decide ('0' ≤ c) && decide (c ≤ '9')

def digVal (c : Char) : Nat := c.toNat - '0'.toNat

def digitsVal (cs : List Char) : Nat := cs.foldl (fun n c => 10 * n + digVal c) 0

def hexVal (c : Char) : Option Nat :=
  if isDigitCh c then some (digVal c)
  else if decide ('a' ≤ c) && decide (c ≤ 'f') then some (c.toNat - 'a'.toNat + 10)
  else if decide ('A' ≤ c) && decide (c ≤ 'F') then some (c.toNat - 'A'.toNat + 10)
  else none

/-- Digits of a radix-`base` integer literal body (hex/octal/binary). -/
def parseRadix (base : Nat) (cs : List Char) : Option Nat :=
  if cs.isEmpty then none
  else cs.foldl (fun acc c =>
    match acc, hexVal c with
    | some n, some d => if d < base then some (base * n + d) else none
    | _, _ => none) (some 0)

/-- Split a character list at the first character satisfying `p`. -/
def splitAtCh (p : Char → Bool) : List Char → List Char × Option (List Char)
  | [] => ([], none)
  | c :: cs =>
    if p c then ([], some cs)
    else
      let r := splitAtCh p cs
      (c :: r.1, r.2)

/-- The mantissa of a JS decimal literal: `12`, `12.`, `.5`, `12.5`. -/
def parseMantissa (cs : List Char) : Option ℚ :=
  match splitAtCh (· = '.') cs with
  | (ip, none) => if !ip.isEmpty && ip.all isDigitCh then some (mkRat (digitsVal ip) 1) else none
  | (ip, some fp) =>
    if ip.all isDigitCh && fp.all isDigitCh && (!ip.isEmpty || !fp.isEmpty) then
      some (qAdd (mkRat (digitsVal ip) 1) (qDivN (mkRat (digitsVal fp) 1) (10 ^ fp.length)))
    else none

/-- The exponent part of a JS decimal literal (after `e`/`E`). -/
def parseExp (cs : List Char) : Option Int :=
  match cs with
  | '+' :: ds => if !ds.isEmpty && ds.all isDigitCh then some (digitsVal ds) else none
  | '-' :: ds => if !ds.isEmpty && ds.all isDigitCh then some (-(digitsVal ds : Int)) else none
  | ds => if !ds.isEmpty && ds.all isDigitCh then some (digitsVal ds) else none

/-- An unsigned JS decimal literal with optional exponent. -/
def parseDecimal (cs : List Char) : Option ℚ :=
  match splitAtCh (fun c => c = 'e' || c = 'E') cs with
  | (mant, none) => parseMantissa mant
  | (mant, some ecs) =>
    match parseMantissa mant, parseExp ecs with
    | some m, some e =>
      some (if 0 ≤ e then qMulN m (10 ^ e.toNat) else qDivN m (10 ^ (-e).toNat))
    | _, _ => none

/-- A signed body: `Infinity` or a decimal literal, negated when `neg`. -/
def parseSigned (cs : List Char) (neg : Bool) : JSNum :=
  if cs = "Infinity".data then (if neg then .negInf else .posInf)
  else
    match parseDecimal cs with
    | some q => .real (if neg then qNeg q else q)
    | none => .nan

/-- JS `Number(s)` for a string `s`: trimmed-empty is `0`, radix
prefixes are unsigned only, otherwise an optionally signed decimal
or `Infinity` literal; anything else is NaN. -/
def jsParseString (s : String) : JSNum :=
  match trimWS s.data with
  | [] => .real 0
  | '0' :: 'x' :: rest => ((parseRadix 16 rest).map (fun n => JSNum.real (mkRat n 1))).getD .nan
  | '0' :: 'X' :: rest => ((parseRadix 16 rest).map (fun n => JSNum.real (mkRat n 1))).getD .nan
  | '0' :: 'o' :: rest => ((parseRadix 8 rest).map (fun n => JSNum.real (mkRat n 1))).getD .nan
  | '0' :: 'O' :: rest => ((parseRadix 8 rest).map (fun n => JSNum.real (mkRat n 1))).getD .nan
  | '0' :: 'b' :: rest => ((parseRadix 2 rest).map (fun n => JSNum.real (mkRat n 1))).getD .nan
  | '0' :: 'B' :: rest => ((parseRadix 2 rest).map (fun n => JSNum.real (mkRat n 1))).getD .nan
  | '+' :: rest => parseSigned rest false
  | '-' :: rest => parseSigned rest true
  | rest => parseSigned rest false

/-- JS `Number(v)` for a possibly-undefined cell value. -/
def jsToNum : Option Value → JSNum
  | none => .nan
  | some (.num q) => .real q
  | some (.bool b) => .real (cond b 1 0)
  | some .vnull => .real 0
  | some (.str s) => jsParseString s

/-- JS truthiness of a possibly-undefined cell value. -/
def truthy : Option Value → Bool
  | none => false
  | some (.num q) => decide (q ≠ 0)
  | some (.str s) => decide (s ≠ "")
  | some (.bool b) => b
  | some .vnull => false

/-- JS `v || d`: the value if truthy, else the default. -/
def jsOr (o : Option Value) (d : Value) : Value :=
  if truthy o then o.getD d else d

/-! ### JS number-to-string and `String(...)` -/

def natToStrAux : Nat → Nat → List Char
  | 0, _ => []
  | _ + 1, 0 => []
  | fuel + 1, n => natToStrAux fuel (n / 10) ++ [Char.ofNat ('0'.toNat + n % 10)]

def natToStr (n : Nat) : String :=
  if n = 0 then "0" else ⟨natToStrAux (n + 1) n⟩

/-- Decimal digits of a fraction in `[0, 1)`, bounded by fuel (ample
for every terminating decimal reachable from parsed CSV cells). -/
def fracDigits : Nat → ℚ → List Char
  | 0, _ => []
  | fuel + 1, f =>
    if f.num = 0 then []
    else
      let f10 := qMulN f 10
      Char.ofNat ('0'.toNat + (qFloor f10).toNat) ::
        fracDigits fuel (qSub f10 (mkRat (qFloor f10) 1))

def qToStrNN (q : ℚ) : String :=
  let fr := qSub q (mkRat (qFloor q) 1)
  if fr.num = 0 then natToStr (qFloor q).toNat
  else natToStr (qFloor q).toNat ++ "." ++ String.mk (fracDigits 40 fr)

/-- JS number-to-string for the finite values reachable here. -/
def qToString (q : ℚ) : String :=
  if q < 0 then "-" ++ qToStrNN (qNeg q) else qToStrNN q

/-- JS `String(v)` on a cell value. -/
def jsString : Value → String
  | .str s => s
  | .num q => qToString q
  | .bool b => cond b "true" "false"
  | .vnull => "null"

/-- JS `String(v)` where `v` may be `undefined`. -/
def jsStringO : Option Value → String
  | none => "undefined"
  | some v => jsString v

/-! ### The JS stable sort with a numeric comparator

`arr.sort((a, b) => cmp(a, b))` with a consistent comparator is modelled
by a stable insertion sort: `pre y x = true` means the comparator puts
`y` strictly before `x`, so an inserted element passes every strictly
smaller-keyed element and stops before the first element it does not
strictly follow (ties keep original order, matching ES2019 stability). -/

def insertOrd (pre : α → α → Bool) (x : α) : List α → List α
  | [] => [x]
  | y :: ys => if pre y x then y :: insertOrd pre x ys else x :: y :: ys

def sortOrd (pre : α → α → Bool) : List α → List α
  | [] => []
  | x :: xs => insertOrd pre x (sortOrd pre xs)

/-! ### Record/object grouping and JS property enumeration order

`Record<string, β>` objects built by `groups[key] = ...` are stored as
association lists in assignment order. `Object.entries` does not return
that order directly: per ECMAScript `[[OwnPropertyKeys]]`, integer-like
keys (canonical array indices, i.e. digit strings without leading zeros
whose value is below 2^32 - 1) are enumerated first in ascending
numeric order, followed by the remaining string keys in
first-assignment order. -/

/-- Update the entry at `k` with `s`, or append `(k, i)` if absent
(the assignment-order store behind `groups[key] = ...`). -/
def updAt (k : String) (i : β) (s : β → β) : List (String × β) → List (String × β)
  | [] => [(k, i)]
  | p :: rest => if p.1 = k then (p.1, s p.2) :: rest else p :: updAt k i s rest

/-- Whether a string is a canonical array-index property key: a
non-empty digit string, no leading zero (except "0" itself), with
numeric value below 2^32 - 1. -/
def isArrayIndexKey (s : String) : Bool :=
  match s.data with
  | [] => false
  | c :: cs =>
    (c :: cs).all isDigitCh && (if c = '0' then cs.isEmpty else true) &&
      decide (digitsVal (c :: cs) < 4294967295)

/-- The numeric value of a digit-string key. -/
def keyNum (s : String) : Nat := digitsVal s.data

/-- `Object.entries`: array-index keys first in ascending numeric
order, then the remaining keys in assignment order. -/
def jsEntries (gs : List (String × β)) : List (String × β) :=
  sortOrd (fun p q => decide (keyNum p.1 < keyNum q.1))
      (gs.filter (fun p => isArrayIndexKey p.1)) ++
    gs.filter (fun p => !isArrayIndexKey p.1)

/-- A bar/line/pie chart point `{name, value}`. -/
structure LPoint where
  name : String
  value : JSNum
deriving DecidableEq, Repr

/-- A scatter point `{x, y, name}`; `name` is the raw grouping value. -/
structure SPoint where
  x : JSNum
  y : JSNum
  name : Value
deriving DecidableEq, Repr

/-- An element of the heterogeneous array returned by `chartData`. -/
inductive CPoint where
  | lab (p : LPoint)
  | scat (p : SPoint)
deriving DecidableEq, Repr

/-- Comparator order of `.sort((a, b) => b.value - a.value)`:
`preDesc y x` holds when `y.value - x.value < 0`, i.e. `y` sorts
strictly before `x` (descending). -/
def preDesc (y x : LPoint) : Bool := JSNum.lt x.value y.value

/-- Comparator order of `.sort((a, b) => a - b)` (ascending). -/
def preAsc (y x : JSNum) : Bool := JSNum.lt y x

/-- `String(row[col] || 'Unknown')`: the group key used by the pie and
grouped bar/line branches. -/
def rowKey (col : String) (r : Row) : String :=
  jsString (jsOr (getCol r col) (.str "Unknown"))

/-- Pie branch accumulator: `groups[key] = (groups[key] || 0) + 1`,
in assignment order. -/
def pieGroups (data : List Row) (xAxis : String) : List (String × Nat) :=
  data.foldl (fun gs r => updAt (rowKey xAxis r) 1 (· + 1) gs) []

/-- `Object.entries(groups)` for the pie branch. -/
def pieEntries (data : List Row) (xAxis : String) : List (String × Nat) :=
  jsEntries (pieGroups data xAxis)

/-- The pie series: count per key, sort descending, top 10. -/
def pieSeries (data : List Row) (xAxis : String) : List LPoint :=
  (sortOrd preDesc ((pieEntries data xAxis).map
    (fun p => ⟨p.1, .real (mkRat p.2 1)⟩))).take 10

/-- `Number(row[yAxis])` filtered by `!isNaN`: the value a row
contributes to its bucket, if any. -/
def yVal (yAxis : String) (r : Row) : Option JSNum :=
  let v := jsToNum (getCol r yAxis)
  if v.isNaNb then none else some v

def optList : Option JSNum → List JSNum
  | none => []
  | some v => [v]

/-- Grouped bar/line accumulator: a bucket is created for every key;
only non-NaN `Number(row[yAxis])` values are pushed into it
(assignment order). -/
def groupedBuckets (data : List Row) (groupBy yAxis : String) :
    List (String × List JSNum) :=
  data.foldl (fun gs r =>
    updAt (rowKey groupBy r) (optList (yVal yAxis r))
      (fun vs => vs ++ optList (yVal yAxis r)) gs) []

/-- `Object.entries(groups)` for the grouped bar/line branch. -/
def groupedEntries (data : List Row) (groupBy yAxis : String) :
    List (String × List JSNum) :=
  jsEntries (groupedBuckets data groupBy yAxis)

/-- The `switch (aggregation)` reducer, including the implicit
`let aggregatedValue = 0` default for an unrecognized name. -/
def aggregate (aggregation : String) (values : List JSNum) : JSNum :=
  if aggregation = "sum" then sumJS values
  else if aggregation = "avg" then (sumJS values).divN values.length
  else if aggregation = "count" then .real (mkRat values.length 1)
  else if aggregation = "max" then values.foldl JSNum.maxJ .negInf
  else if aggregation = "min" then values.foldl JSNum.minJ .posInf
  else .real 0

/-- The grouped bar/line series: aggregate per bucket, sort descending
by value, top 20. -/
def groupedSeries (data : List Row) (yAxis groupBy aggregation : String) :
    List LPoint :=
  (sortOrd preDesc ((groupedEntries data groupBy yAxis).map
    (fun p => ⟨p.1, aggregate aggregation p.2⟩))).take 20

/-- The scatter series: both axes must coerce to non-NaN numbers; rows
keep their original order; first 1000 points. -/
def scatterSeries (data : List Row) (xAxis yAxis groupBy : String) :
    List SPoint :=
  ((data.filter (fun r =>
      !(jsToNum (getCol r xAxis)).isNaNb && !(jsToNum (getCol r yAxis)).isNaNb)).map
    (fun r => ⟨jsToNum (getCol r xAxis), jsToNum (getCol r yAxis),
      jsOr (getCol r groupBy) (.str "Data Point")⟩)).take 1000

/-- The ungrouped bar/line series: truthy `row[xAxis]` and non-NaN
`Number(row[yAxis])`; original order; first 50 points. -/
def ungroupedSeries (data : List Row) (xAxis yAxis : String) : List LPoint :=
  ((data.filter (fun r =>
      truthy (getCol r xAxis) && !(jsToNum (getCol r yAxis)).isNaNb)).map
    (fun r => ⟨jsStringO (getCol r xAxis), jsToNum (getCol r yAxis)⟩)).take 50

/-- The chart data transformer: mirrors the control flow of `chartData`
(early exit on unset x-axis, then pie / scatter / bar-line with the
y-axis check and the grouped/ungrouped split). -/
def chartData (data : List Row) (chartType xAxis yAxis groupBy aggregation : String) :
    List CPoint :=
  if xAxis = "" then []
  else if chartType = "pie" then (pieSeries data xAxis).map CPoint.lab
  else if chartType = "scatter" then
    if yAxis = "" then [] else (scatterSeries data xAxis yAxis groupBy).map CPoint.scat
  else if yAxis = "" then []
  else if groupBy = "" then (ungroupedSeries data xAxis yAxis).map CPoint.lab
  else (groupedSeries data yAxis groupBy aggregation).map CPoint.lab

/-! ### Schema inference and profiling (`DataOverview` in ChatInterface.tsx) -/

inductive ColType where
  | numeric
  | date
  | text
deriving DecidableEq, Repr

/-- Per-numeric-column statistics. -/
structure Stats where
  min : JSNum
  max : JSNum
  mean : JSNum
  median : JSNum
  count : Nat
deriving DecidableEq, Repr

/-- The first `min(100, rowCount)` rows used for null counting and
type voting. -/
def sampleRows (data : List Row) : List Row := data.take 100

/-- `value === null || value === undefined || value === ''`. -/
def isMissing : Option Value → Bool
  | none => true
  | some .vnull => true
  | some (.str "") => true
  | _ => false

/-- Sample-based null count of a column. -/
def nullCountCol (data : List Row) (col : String) : Nat :=
  ((sampleRows data).filter (fun r => isMissing (getCol r col))).length

/-- Sample rows voting numeric: not missing and
`!isNaN(Number(value))` (the `value !== ''` conjunct is subsumed). -/
def numericVotes (data : List Row) (col : String) : Nat :=
  ((sampleRows data).filter (fun r =>
    !isMissing (getCol r col) && !(jsToNum (getCol r col)).isNaNb)).length

/-- Sample rows voting date: not missing, not a numeric vote, a string,
and accepted by the host `Date.parse` (passed in as `dateParse`). -/
def dateVotes (dateParse : String → Bool) (data : List Row) (col : String) : Nat :=
  ((sampleRows data).filter (fun r =>
    !isMissing (getCol r col) && (jsToNum (getCol r col)).isNaNb &&
      (match getCol r col with
       | some (.str s) => dateParse s
       | _ => false))).length

/-! #### IEEE-754 binary64 rounding

`Number` arithmetic in the source is IEEE-754 double precision, so the
threshold `data.length * 0.7` is not the exact rational `0.7 * length`:
both the literal `0.7` and the product are rounded to 53-bit mantissas.
A positive rational `a / b` is rounded by scaling it into the mantissa
window `[2^52, 2^53)` and rounding the scaled quotient to the nearest
integer, ties to even; the exponent is kept unbounded here and `mulD`
maps results of magnitude at least `2^1024` to the infinities, as the
`*` operator does on overflow.  (Subnormal rounding never arises for
the values reached by this code.) -/

/-- Number of binary digits of `n` (`0` for `0`), fuel-based so that it
reduces in the kernel. -/
def bitlenAux : Nat → Nat → Nat
  | 0, _ => 0
  | fuel + 1, n => if n = 0 then 0 else bitlenAux fuel (n / 2) + 1

def bitlen (n : Nat) : Nat := bitlenAux n n

/-- Round `A / B` to the nearest integer, ties to even. -/
def roundNE (A B : Nat) : Nat :=
  if 2 * (A % B) < B then A / B
  else if B < 2 * (A % B) then A / B + 1
  else if A / B % 2 = 0 then A / B else A / B + 1

/-- Scaled denominator `b * 2^(bitlen a)` used to bring `a / b` into
the mantissa window. -/
def flB (a b : Nat) : Nat := b * 2 ^ bitlen a

/-- Scaling exponent: `52 + bitlen b`, bumped by one when the scaled
numerator falls below the window. -/
def flU (a b : Nat) : Nat :=
  if a * 2 ^ (52 + bitlen b) < 2 ^ 52 * flB a b then 53 + bitlen b else 52 + bitlen b

/-- Scaled numerator `a * 2^(flU a b)`. -/
def flA (a b : Nat) : Nat := a * 2 ^ flU a b

/-- The 53-bit mantissa of `a / b`, rounded to nearest, ties to even. -/
def flM (a b : Nat) : Nat := roundNE (flA a b) (flB a b)

/-- The positive rational `a / b` rounded to the nearest binary64
value (unbounded exponent). -/
def flPosNat (a b : Nat) : ℚ := mkRat (flM a b * 2 ^ bitlen a) (2 ^ flU a b)

/-- A rational rounded to the nearest binary64 value (unbounded
exponent); zero and signs are handled directly. -/
def flQ (q : ℚ) : ℚ :=
  if q.num = 0 then 0
  else if 0 < q.num then flPosNat q.num.toNat q.den
  else qNeg (flPosNat (-q.num).toNat q.den)

/-- `2^1024`, the smallest magnitude that overflows a binary64. -/
def qLim : ℚ := mkRat ((2 ^ 1024 : ℕ) : ℤ) 1

/-- IEEE-754 binary64 multiplication of two finite doubles: round the
exact product to the nearest representable value, overflowing to a
signed infinity at magnitude `2^1024`. -/
def mulD (x y : ℚ) : JSNum :=
  if Rat.blt (qNeg qLim) (flQ (qMul x y)) = false then .negInf
  else if Rat.blt (flQ (qMul x y)) qLim = false then .posInf
  else .real (flQ (qMul x y))

/-- The binary64 value of the literal `0.7`
(`3152519739159347 / 2^52`, slightly below `7/10`). -/
def double07 : ℚ := flQ (mkRat 7 10)

/-- The binary64 product `data.length * 0.7` used as the numeric
classification threshold (`data.length` itself is exact below
`2^53`). -/
def numericThreshold (n : Nat) : JSNum := mulD (flQ (mkRat n 1)) double07

/-- The binary64 product `data.length * 0.5` used as the date
classification threshold (`0.5` is exactly representable). -/
def dateThreshold (n : Nat) : JSNum := mulD (flQ (mkRat n 1)) (flQ (mkRat 1 2))

/-- Classification: numeric if numeric votes exceed the binary64
product `data.length * 0.7`, else date if date votes exceed
`data.length * 0.5`, else text. The thresholds use the full row count
while the votes are sample-bounded, and the comparisons are carried
out on IEEE doubles. -/
def classifyColumn (dateParse : String → Bool) (data : List Row) (col : String) : ColType :=
  if JSNum.lt (numericThreshold data.length) (.real (mkRat (numericVotes data col) 1))
  then .numeric
  else if JSNum.lt (dateThreshold data.length) (.real (mkRat (dateVotes dateParse data col) 1))
  then .date
  else .text

/-- The claim's classification rule read literally: numeric votes
compared against the exact rational `7/10` of the full row count and
date votes against `1/2`, with no floating-point rounding.  Stated
only to be compared against `classifyColumn`. -/
def claimClassifyColumn (dateParse : String → Bool) (data : List Row) (col : String) : ColType :=
  if Rat.blt (qMul (mkRat data.length 1) (mkRat 7 10)) (mkRat (numericVotes data col) 1)
  then .numeric
  else if Rat.blt (qMul (mkRat data.length 1) (mkRat 1 2)) (mkRat (dateVotes dateParse data col) 1)
  then .date
  else .text

/-- All parseable numeric values of a column over the entire dataset. -/
def numericValues (data : List Row) (col : String) : List JSNum :=
  (data.map (fun r => jsToNum (getCol r col))).filter (fun v => !v.isNaNb)

/-- Per-column statistics: sort ascending in place, then min/max via
`Math.min`/`Math.max` spread, mean as sum/length, median as the single
element at `Math.floor(length / 2)`. -/
def statsFor (data : List Row) (col : String) : Option Stats :=
  let values := numericValues data col
  if values.isEmpty then none
  else
    let sorted := sortOrd preAsc values
    some { min := sorted.foldl JSNum.minJ .posInf
           max := sorted.foldl JSNum.maxJ .negInf
           mean := (sumJS sorted).divN sorted.length
           median := sorted.getD (sorted.length / 2) (.real 0)
           count := values.length }

/-- The analysis record assembled by `DataOverview` (the fields the
spec's claims are about). -/
structure Analysis where
  rowCount : Nat
  columnCount : Nat
  columns : List String
  columnTypes : List (String × ColType)
  nullCounts : List (String × Nat)
  numericColumns : List String
  numericStats : List (String × Stats)
deriving DecidableEq, Repr

/-- Schema inference plus profiling: `null` (here `none`) on an empty
dataset, otherwise the per-column classification, null counts and
numeric statistics. -/
def analyze (dateParse : String → Bool) (data : List Row) : Option Analysis :=
  if data.isEmpty then none
  else
    let cols := (data.headD []).map Prod.fst
    let numCols := cols.filter (fun c => decide (classifyColumn dateParse data c = .numeric))
    some { rowCount := data.length
           columnCount := cols.length
           columns := cols
           columnTypes := cols.map (fun c => (c, classifyColumn dateParse data c))
           nullCounts := cols.map (fun c => (c, nullCountCol data c))
           numericColumns := numCols
           numericStats := numCols.filterMap (fun c => (statsFor data c).map (fun s => (c, s))) }

/-- `totalNulls`: sum of the per-column sample-based null counts. -/
def totalNulls (a : Analysis) : Nat := (a.nullCounts.map Prod.snd).sum

/-- `totalCells = rowCount * columnCount`. -/
def totalCells (a : Analysis) : Nat := a.rowCount * a.columnCount

/-- `(totalCells - totalNulls) / totalCells * 100` with JS division
(0/0 is NaN when the dataset has no columns). -/
def completenessOf (a : Analysis) : JSNum :=
  (JSNum.divN (.real (mkRat ((totalCells a : Int) - (totalNulls a : Int)) 1))
    (totalCells a)).mulN 100

/-! ### The CSV re-serialization utility (`convertToCSV`) -/

/-- Hexadecimal digit character (lowercase, as `JSON.stringify`
emits). -/
def hexDigit (n : Nat) : Char :=
  if n < 10 then Char.ofNat (48 + n) else Char.ofNat (87 + n)

/-- The `JSON.stringify` escape of one string character: the quote and
backslash, the named control escapes `\b \t \n \f \r`, `\u00XX` for
the remaining control characters, and the character itself
otherwise. -/
def escapeChar (c : Char) : String :=
  if c = '"' then "\\\""
  else if c = '\\' then "\\\\"
  else if c = '\n' then "\\n"
  else if c = '\t' then "\\t"
  else if c = '\r' then "\\r"
  else if c = Char.ofNat 8 then "\\b"
  else if c = Char.ofNat 12 then "\\f"
  else if c.toNat < 32 then
    "\\u00" ++ String.singleton (hexDigit (c.toNat / 16)) ++
      String.singleton (hexDigit (c.toNat % 16))
  else String.singleton c

/-- `JSON.stringify` on the cell values reachable here: strings are
quoted and escaped, numbers and booleans are rendered bare. -/
def jsonStr : Value → String
  | .str s => "\"" ++ String.join (s.data.map escapeChar) ++ "\""
  | .num q => qToString q
  | .bool b => cond b "true" "false"
  | .vnull => "null"

/-- `JSON.stringify(row[header] || '')`. -/
def csvCell (o : Option Value) : String := jsonStr (jsOr o (.str ""))

/-- One data line: the cells of a row in header order, comma-joined. -/
def csvRowLine (headers : List String) (r : Row) : String :=
  String.intercalate "," (headers.map (fun h => csvCell (getCol r h)))

/-- `convertToCSV`: empty string for no rows, else the header line
followed by one line per row, joined with newlines. -/
def convertToCSV (data : List Row) : String :=
  if data.isEmpty then ""
  else
    let headers := (data.headD []).map Prod.fst
    String.intercalate "\n"
      (String.intercalate "," headers :: data.map (csvRowLine headers))

/-! ### Claim-side reference definitions

These follow the wording of the specification claims (rather than the
source) and exist only to be compared against the source-derived
definitions above. -/

/-- The claims' notion of a non-empty cell (present and not the empty
string), as opposed to JS truthiness. -/
def nonEmptyVal (o : Option Value) : Bool := !isMissing o

/-- C5's description of the ungrouped bar/line series: numeric y-value
and non-empty x-value. -/
def claimUngroupedSeries (data : List Row) (xAxis yAxis : String) : List LPoint :=
  ((data.filter (fun r =>
      nonEmptyVal (getCol r xAxis) && !(jsToNum (getCol r yAxis)).isNaNb)).map
    (fun r => ⟨jsStringO (getCol r xAxis), jsToNum (getCol r yAxis)⟩)).take 50

/-- Finiteness of a JS number (C4 claims all scatter coordinates are
finite). -/
def finiteJS : JSNum → Bool
  | .real _ => true
  | _ => false

/-- Membership of a JS number in the interval [0, 100] (C8). -/
def inUnit100 : JSNum → Bool
  | .real q => decide (0 ≤ q) && decide (q ≤ 100)
  | _ => false

/-! ### Grouping characterization lemmas -/

theorem JSNum.lt_asymm' {a b : JSNum} (h : JSNum.lt a b = true) :
    JSNum.lt b a = false := by
  cases a <;> cases b <;> simp_all [JSNum.lt] <;> linarith

theorem JSNum.lt_total {a b : JSNum} (ha : a ≠ .nan) (hb : b ≠ .nan)
    (h1 : JSNum.lt a b = false) (h2 : JSNum.lt b a = false) : a = b := by
  cases a <;> cases b <;> simp_all [JSNum.lt] <;> linarith

theorem JSNum.lt_negtrans {a b c : JSNum} (hb : b ≠ .nan)
    (h1 : JSNum.lt a b = false) (h2 : JSNum.lt b c = false) :
    JSNum.lt a c = false := by
  cases a <;> cases b <;> cases c <;> simp_all [JSNum.lt] <;> linarith

/-! ### Properties of the stable sort -/

theorem mem_insertOrd (pre : α → α → Bool) (x z : α) :
    ∀ l : List α, z ∈ insertOrd pre x l ↔ z = x ∨ z ∈ l := by
  intro l
  induction l with
  | nil => simp [insertOrd]
  | cons y ys ih =>
    rw [insertOrd]
    by_cases h : pre y x = true
    · rw [if_pos h]
      simp only [List.mem_cons, ih]
      tauto
    · rw [if_neg h]
      simp [List.mem_cons]

theorem insertOrd_perm (pre : α → α → Bool) (x : α) :
    ∀ l : List α, (insertOrd pre x l).Perm (x :: l) := by
  intro l
  induction l with
  | nil => simp [insertOrd]
  | cons y ys ih =>
    by_cases h : pre y x = true
    · rw [insertOrd, if_pos h]
      exact (ih.cons y).trans (List.Perm.swap x y ys)
    · rw [insertOrd, if_neg h]

theorem sortOrd_perm (pre : α → α → Bool) :
    ∀ l : List α, (sortOrd pre l).Perm l := by
  intro l
  induction l with
  | nil => simp [sortOrd]
  | cons x xs ih =>
    exact (insertOrd_perm pre x (sortOrd pre xs)).trans (ih.cons x)

theorem length_sortOrd (pre : α → α → Bool) (l : List α) :
    (sortOrd pre l).length = l.length :=
  (sortOrd_perm pre l).length_eq

theorem mem_sortOrd (pre : α → α → Bool) (l : List α) (z : α) :
    z ∈ sortOrd pre l ↔ z ∈ l :=
  (sortOrd_perm pre l).mem_iff

/-- Sortedness: with asymmetry on all of `α` and negative transitivity
on a class `G` containing every element, insertion sort produces a list
in which no later element strictly precedes an earlier one. -/
theorem pairwise_insertOrd (pre : α → α → Bool) (G : α → Prop)
    (hasymm : ∀ a b, pre a b = true → pre b a = false)
    (hnt : ∀ a b c, G a → G b → G c → pre b a = false → pre c b = false → pre c a = false)
    (x : α) :
    ∀ l : List α, G x → (∀ z ∈ l, G z) →
      l.Pairwise (fun p q => pre q p = false) →
      (insertOrd pre x l).Pairwise (fun p q => pre q p = false) := by
  intro l
  induction l with
  | nil =>
    intro _ _ _
    simp [insertOrd]
  | cons y ys ih =>
    intro hGx hGl hpw
    by_cases h : pre y x = true
    · rw [insertOrd, if_pos h]
      refine List.Pairwise.cons ?_ ?_
      · intro z hz
        rcases (mem_insertOrd pre x z ys).mp hz with rfl | hzys
        · exact hasymm y z h
        · exact (List.pairwise_cons.mp hpw).1 z hzys
      · exact ih hGx (fun z hz => hGl z (List.mem_cons_of_mem y hz))
          (List.pairwise_cons.mp hpw).2
    · have hyx : pre y x = false := by simpa using h
      rw [insertOrd, if_neg h]
      refine List.Pairwise.cons ?_ hpw
      intro z hz
      rcases List.mem_cons.mp hz with rfl | hzys
      · exact hyx
      · exact hnt x y z hGx (hGl y (List.mem_cons_self y ys))
          (hGl z (List.mem_cons_of_mem y hzys)) hyx
          ((List.pairwise_cons.mp hpw).1 z hzys)

theorem pairwise_sortOrd (pre : α → α → Bool) (G : α → Prop)
    (hasymm : ∀ a b, pre a b = true → pre b a = false)
    (hnt : ∀ a b c, G a → G b → G c → pre b a = false → pre c b = false → pre c a = false) :
    ∀ l : List α, (∀ z ∈ l, G z) →
      (sortOrd pre l).Pairwise (fun p q => pre q p = false) := by
  intro l
  induction l with
  | nil =>
    intro _
    simp [sortOrd]
  | cons x xs ih =>
    intro hG
    rw [sortOrd]
    refine pairwise_insertOrd pre G hasymm hnt x (sortOrd pre xs)
      (hG x (List.mem_cons_self x xs)) ?_
      (ih (fun z hz => hG z (List.mem_cons_of_mem x hz)))
    intro z hz
    exact hG z (List.mem_cons_of_mem x ((mem_sortOrd pre xs z).mp hz))

/-! ### Fold lemmas for `Math.min`/`Math.max` over sorted values -/

theorem minJ_eq_of_ne_nan {a b : JSNum} (ha : a ≠ .nan) (hb : b ≠ .nan) :
    JSNum.minJ a b = if JSNum.lt b a then b else a := by
  cases a <;> cases b <;> simp_all [JSNum.minJ]

theorem maxJ_eq_of_ne_nan {a b : JSNum} (ha : a ≠ .nan) (hb : b ≠ .nan) :
    JSNum.maxJ a b = if JSNum.lt a b then b else a := by
  cases a <;> cases b <;> simp_all [JSNum.maxJ]

theorem foldl_minJ_const (x : JSNum) :
    ∀ xs : List JSNum, x ≠ .nan → (∀ y ∈ xs, y ≠ .nan) →
      (∀ y ∈ xs, JSNum.lt y x = false) → xs.foldl JSNum.minJ x = x := by
  intro xs
  induction xs with
  | nil =>
    intro _ _ _
    rfl
  | cons y ys ih =>
    intro hx hn hlt
    rw [List.foldl_cons, minJ_eq_of_ne_nan hx (hn y (List.mem_cons_self y ys)),
      hlt y (List.mem_cons_self y ys), if_neg (by simp)]
    exact ih hx (fun z hz => hn z (List.mem_cons_of_mem y hz))
      (fun z hz => hlt z (List.mem_cons_of_mem y hz))

/-- `Math.min(...sorted)` is the head of an ascending-sorted list. -/
theorem foldl_minJ_sorted :
    ∀ l : List JSNum, l ≠ [] → (∀ y ∈ l, y ≠ .nan) →
      l.Pairwise (fun p q => JSNum.lt q p = false) →
      l.foldl JSNum.minJ .posInf = l.headD (.real 0) := by
  intro l
  match l with
  | [] => intro h; cases h rfl
  | x :: xs =>
    intro _ hn hpw
    have hx : x ≠ JSNum.nan := hn x (List.mem_cons_self x xs)
    have hminx : JSNum.minJ .posInf x = x := by
      cases x <;> simp_all [JSNum.minJ, JSNum.lt]
    rw [List.foldl_cons, hminx, List.headD_cons]
    exact foldl_minJ_const x xs hx (fun z hz => hn z (List.mem_cons_of_mem x hz))
      (fun z hz => (List.pairwise_cons.mp hpw).1 z hz)

theorem foldl_maxJ_chain :
    ∀ (xs : List JSNum) (x : JSNum), x ≠ .nan → (∀ y ∈ xs, y ≠ .nan) →
      (x :: xs).Pairwise (fun p q => JSNum.lt q p = false) →
      xs.foldl JSNum.maxJ x = (x :: xs).getLastD .nan := by
  intro xs
  induction xs with
  | nil =>
    intro x _ _ _
    rfl
  | cons y ys ih =>
    intro x hx hn hpw
    have hy : y ≠ JSNum.nan := hn y (List.mem_cons_self y ys)
    have hyx : JSNum.lt y x = false := (List.pairwise_cons.mp hpw).1 y (List.mem_cons_self y ys)
    have hmax : JSNum.maxJ x y = y := by
      rw [maxJ_eq_of_ne_nan hx hy]
      by_cases hxy : JSNum.lt x y = true
      · rw [if_pos hxy]
      · rw [if_neg hxy]
        exact JSNum.lt_total hx hy (by simpa using hxy) hyx
    rw [List.foldl_cons, hmax]
    have := ih y hy (fun z hz => hn z (List.mem_cons_of_mem y hz))
      (List.pairwise_cons.mp hpw).2
    rw [this]
    rfl

/-- `Math.max(...sorted)` is the last element of an ascending-sorted list. -/
theorem foldl_maxJ_sorted :
    ∀ l : List JSNum, l ≠ [] → (∀ y ∈ l, y ≠ .nan) →
      l.Pairwise (fun p q => JSNum.lt q p = false) →
      l.foldl JSNum.maxJ .negInf = l.getLastD .nan := by
  intro l
  match l with
  | [] => intro h; cases h rfl
  | x :: xs =>
    intro _ hn hpw
    have hx : x ≠ JSNum.nan := hn x (List.mem_cons_self x xs)
    have hmaxx : JSNum.maxJ .negInf x = x := by
      cases x <;> simp_all [JSNum.maxJ, JSNum.lt]
    rw [List.foldl_cons, hmaxx]
    exact foldl_maxJ_chain xs x hx (fun z hz => hn z (List.mem_cons_of_mem x hz)) hpw

/-! ### Permutation-invariance of the JS sum -/

instance : RightCommutative JSNum.add :=
  ⟨fun b a1 a2 => by
    cases b <;> cases a1 <;> cases a2 <;> simp [JSNum.add, qAdd_eq] <;> ring⟩

theorem sumJS_perm {l1 l2 : List JSNum} (h : l1.Perm l2) : sumJS l1 = sumJS l2 :=
  h.foldl_eq _

/-- The sum of an ascending sort equals the sum of the original list. -/
theorem sumJS_sortOrd (l : List JSNum) : sumJS (sortOrd preAsc l) = sumJS l :=
  sumJS_perm (sortOrd_perm preAsc l)

/-! ### Claim theorems -/

theorem rat_blt_iff (a b : ℚ) : Rat.blt a b = true ↔ a < b := Iff.rfl

/-! #### Properties of the binary64 rounding -/

theorem bitlenAux_zero (fuel : Nat) : bitlenAux fuel 0 = 0 := by
  cases fuel
  · rfl
  · rfl

theorem bitlenAux_spec : ∀ (fuel n : Nat), n ≤ fuel → 1 ≤ n →
    2 ^ (bitlenAux fuel n - 1) ≤ n ∧ n < 2 ^ bitlenAux fuel n := by
  intro fuel
  induction fuel with
  | zero => intro n hle h1; omega
  | succ f ih =>
    intro n hle h1
    have hne : n ≠ 0 := by omega
    have hstep : bitlenAux (f + 1) n = bitlenAux f (n / 2) + 1 := by
      simp [bitlenAux, hne]
    rw [hstep]
    by_cases h2 : n / 2 = 0
    · have hn1 : n = 1 := by omega
      subst hn1
      rw [h2, bitlenAux_zero]
      norm_num
    · have h21 : 1 ≤ n / 2 := by omega
      have hfle : n / 2 ≤ f := by omega
      obtain ⟨hlo, hhi⟩ := ih (n / 2) hfle h21
      have hk1 : 1 ≤ bitlenAux f (n / 2) := by
        by_contra hc
        have hk0 : bitlenAux f (n / 2) = 0 := by omega
        rw [hk0] at hhi
        norm_num at hhi
        omega
      constructor
      · have hsp : 2 ^ bitlenAux f (n / 2) = 2 * 2 ^ (bitlenAux f (n / 2) - 1) := by
          rw [← pow_succ']
          congr 1
          omega
        rw [Nat.add_sub_cancel, hsp]
        omega
      · have hsp : 2 ^ (bitlenAux f (n / 2) + 1) = 2 * 2 ^ bitlenAux f (n / 2) :=
          pow_succ' 2 _
        rw [hsp]
        omega

theorem bitlen_spec (n : Nat) (h : 1 ≤ n) :
    2 ^ (bitlen n - 1) ≤ n ∧ n < 2 ^ bitlen n :=
  bitlenAux_spec n n le_rfl h

theorem bitlen_pos (n : Nat) (h : 1 ≤ n) : 1 ≤ bitlen n := by
  obtain ⟨_, hhi⟩ := bitlen_spec n h
  by_contra hc
  have h0 : bitlen n = 0 := by omega
  rw [h0] at hhi
  norm_num at hhi
  omega

theorem bitlen_le (n k : Nat) (h1 : 1 ≤ n) (h : n < 2 ^ k) : bitlen n ≤ k := by
  obtain ⟨hlo, _⟩ := bitlen_spec n h1
  by_contra hc
  push_neg at hc
  have hmono : 2 ^ k ≤ 2 ^ (bitlen n - 1) := Nat.pow_le_pow_right (by norm_num) (by omega)
  omega

theorem lt_bitlen (n k : Nat) (h1 : 1 ≤ n) (h : 2 ^ k ≤ n) : k < bitlen n := by
  obtain ⟨_, hhi⟩ := bitlen_spec n h1
  by_contra hc
  push_neg at hc
  have hmono : 2 ^ bitlen n ≤ 2 ^ k := Nat.pow_le_pow_right (by norm_num) hc
  omega

/-- The scaled numerator sits in the binade `[2^52 * B, 2^53 * B)`. -/
theorem fl_window (a b : Nat) (ha : 1 ≤ a) (hb : 1 ≤ b) :
    2 ^ 52 * flB a b ≤ flA a b ∧ flA a b < 2 ^ 53 * flB a b := by
  obtain ⟨ha1, ha2⟩ := bitlen_spec a ha
  obtain ⟨hb1, hb2⟩ := bitlen_spec b hb
  have hup : a * 2 ^ (52 + bitlen b) < 2 ^ 53 * (b * 2 ^ bitlen a) := by
    have hlb1 : 1 ≤ bitlen b := bitlen_pos b hb
    have h3 : (2 : ℕ) ^ (52 + bitlen b) = 2 ^ 53 * 2 ^ (bitlen b - 1) := by
      rw [← pow_add]
      congr 1
      omega
    calc a * 2 ^ (52 + bitlen b)
        < 2 ^ bitlen a * 2 ^ (52 + bitlen b) :=
          mul_lt_mul_of_pos_right ha2 (by positivity)
      _ = 2 ^ 53 * (2 ^ (bitlen b - 1) * 2 ^ bitlen a) := by rw [h3]; ring
      _ ≤ 2 ^ 53 * (b * 2 ^ bitlen a) :=
          Nat.mul_le_mul le_rfl (Nat.mul_le_mul hb1 le_rfl)
  have hlow2 : 2 ^ 52 * (b * 2 ^ bitlen a) ≤ a * 2 ^ (53 + bitlen b) := by
    have hla1 : 1 ≤ bitlen a := bitlen_pos a ha
    have h4 : (2 : ℕ) ^ bitlen a = 2 * 2 ^ (bitlen a - 1) := by
      rw [← pow_succ']
      congr 1
      omega
    calc 2 ^ 52 * (b * 2 ^ bitlen a)
        ≤ 2 ^ 52 * (2 ^ bitlen b * 2 ^ bitlen a) :=
          Nat.mul_le_mul le_rfl (Nat.mul_le_mul (le_of_lt hb2) le_rfl)
      _ = 2 ^ 53 * 2 ^ (bitlen a - 1) * 2 ^ bitlen b := by rw [h4]; ring
      _ ≤ 2 ^ 53 * a * 2 ^ bitlen b :=
          Nat.mul_le_mul (Nat.mul_le_mul le_rfl ha1) le_rfl
      _ = a * 2 ^ (53 + bitlen b) := by rw [pow_add]; ring
  have hdouble : a * 2 ^ (53 + bitlen b) = 2 * (a * 2 ^ (52 + bitlen b)) := by
    have h5 : (2 : ℕ) ^ (53 + bitlen b) = 2 * 2 ^ (52 + bitlen b) := by
      rw [← pow_succ']
      congr 1
      omega
    rw [h5]
    ring
  simp only [flA, flU, flB]
  split_ifs with hcond
  · refine ⟨hlow2, ?_⟩
    rw [hdouble]
    omega
  · exact ⟨Nat.le_of_not_lt hcond, hup⟩

/-- Round-to-nearest error: the rounded multiple is within half a `B`
of the true numerator. -/
theorem roundNE_err (A B : Nat) (hB : 1 ≤ B) :
    2 * (roundNE A B * B) ≤ 2 * A + B ∧ 2 * A ≤ 2 * (roundNE A B * B) + B := by
  have hdm : B * (A / B) + A % B = A := Nat.div_add_mod A B
  have hmod : A % B < B := Nat.mod_lt _ (by omega)
  rw [roundNE]
  set q := A / B with hq
  set r := A % B with hr
  split_ifs with h1 h2 h3
  · exact ⟨by linarith, by linarith⟩
  · exact ⟨by linarith, by linarith⟩
  · exact ⟨by linarith, by linarith⟩
  · exact ⟨by linarith, by linarith⟩

theorem flM_err (a b : Nat) (hb : 1 ≤ b) :
    2 * (flM a b * flB a b) ≤ 2 * flA a b + flB a b ∧
    2 * flA a b ≤ 2 * (flM a b * flB a b) + flB a b := by
  have hB : 1 ≤ flB a b := by
    rw [flB]
    have h2 : 0 < 2 ^ bitlen a := by positivity
    exact Nat.mul_pos (by omega) h2
  exact roundNE_err (flA a b) (flB a b) hB

/-- Relative-error bound: positive rounding is within one part in
`2^53` of the exact quotient. -/
theorem flPosNat_bounds (a b : Nat) (ha : 1 ≤ a) (hb : 1 ≤ b) :
    (a : ℚ) / b * (1 - 1 / 2 ^ 53) ≤ flPosNat a b ∧
    flPosNat a b ≤ (a : ℚ) / b * (1 + 1 / 2 ^ 53) := by
  obtain ⟨hw, _⟩ := fl_window a b ha hb
  obtain ⟨he1, he2⟩ := flM_err a b hb
  rw [flB, flA] at hw he1 he2
  have hwq : (2 : ℚ) ^ 52 * ((b : ℚ) * 2 ^ bitlen a) ≤ (a : ℚ) * 2 ^ flU a b := by
    exact_mod_cast hw
  have he1q : 2 * ((flM a b : ℚ) * ((b : ℚ) * 2 ^ bitlen a)) ≤
      2 * ((a : ℚ) * 2 ^ flU a b) + (b : ℚ) * 2 ^ bitlen a := by
    exact_mod_cast he1
  have he2q : 2 * ((a : ℚ) * 2 ^ flU a b) ≤
      2 * ((flM a b : ℚ) * ((b : ℚ) * 2 ^ bitlen a)) + (b : ℚ) * 2 ^ bitlen a := by
    exact_mod_cast he2
  have hb0 : 0 < b := by omega
  have hbq : (0 : ℚ) < (b : ℚ) := by exact_mod_cast hb0
  have hu : (0 : ℚ) < (2 : ℚ) ^ flU a b := by positivity
  have hfl : flPosNat a b = (flM a b : ℚ) * 2 ^ bitlen a / 2 ^ flU a b := by
    rw [flPosNat, Rat.mkRat_eq_div]
    push_cast
    ring
  rw [hfl]
  constructor
  · rw [div_mul_eq_mul_div, div_le_div_iff hbq hu]
    linarith [hwq, he2q]
  · rw [div_mul_eq_mul_div, div_le_div_iff hu hbq]
    linarith [hwq, he1q]

/-- Rounding is exact when the scaled denominator divides the scaled
numerator. -/
theorem flPosNat_exact (a b : Nat) (hb : 1 ≤ b) (hd : flB a b ∣ flA a b) :
    flPosNat a b = mkRat a b := by
  obtain ⟨k, hk⟩ := hd
  have hBpos : 0 < flB a b := by
    rw [flB]
    have h2 : 0 < 2 ^ bitlen a := by positivity
    exact Nat.mul_pos (by omega) h2
  have hmodz : flA a b % flB a b = 0 := by
    rw [hk]
    exact Nat.mul_mod_right _ _
  have hdivk : flA a b / flB a b = k := by
    rw [hk]
    exact Nat.mul_div_cancel_left _ hBpos
  have hM : flM a b = k := by
    rw [flM, roundNE, hmodz, hdivk]
    simp [hBpos]
  have hu0 : (0 : ℚ) < ((2 ^ flU a b : ℕ) : ℚ) := by
    have h2 : 0 < 2 ^ flU a b := by positivity
    exact_mod_cast h2
  have hbq : (0 : ℚ) < (b : ℚ) := by exact_mod_cast (by omega : 0 < b)
  have hk2 := hk
  rw [flA, flB] at hk2
  rw [flPosNat, hM, Rat.mkRat_eq_div, Rat.mkRat_eq_div]
  rw [div_eq_div_iff (ne_of_gt hu0) (ne_of_gt hbq)]
  have hNat : k * 2 ^ bitlen a * b = a * 2 ^ flU a b := by
    rw [hk2]
    ring
  exact_mod_cast hNat

theorem flQ_pos_eq (q : ℚ) (h : 0 < q.num) : flQ q = flPosNat q.num.toNat q.den := by
  rw [flQ, if_neg (by omega), if_pos h]

/-- Relative-error bound for `flQ` on positive rationals. -/
theorem flQ_bounds (q : ℚ) (h : 0 < q) :
    q * (1 - 1 / 2 ^ 53) ≤ flQ q ∧ flQ q ≤ q * (1 + 1 / 2 ^ 53) := by
  have hnum : 0 < q.num := Rat.num_pos.mpr h
  have ha1 : 1 ≤ q.num.toNat := by omega
  have hb1 : 1 ≤ q.den := Nat.pos_of_ne_zero q.den_nz
  have hq : (q.num.toNat : ℚ) / (q.den : ℚ) = q := by
    have h2 : ((q.num.toNat : ℕ) : ℚ) = ((q.num : ℤ) : ℚ) := by
      exact_mod_cast Int.toNat_of_nonneg hnum.le
    rw [h2]
    exact Rat.num_div_den q
  obtain ⟨hlo, hhi⟩ := flPosNat_bounds q.num.toNat q.den ha1 hb1
  rw [hq] at hlo hhi
  rw [flQ_pos_eq q hnum]
  exact ⟨hlo, hhi⟩

/-- `flQ` is exact on rationals of the form `m / 2^t` with
`m < 2^53`. -/
theorem flQ_exact (q : ℚ) (m t : Nat) (hm : 1 ≤ m) (hlt : m < 2 ^ 53)
    (hq : q * 2 ^ t = (m : ℚ)) : flQ q = q := by
  have h2t : (0 : ℚ) < 2 ^ t := by positivity
  have hmq : (0 : ℚ) < (m : ℚ) := by exact_mod_cast hm
  have hqpos : 0 < q := by nlinarith [hq, h2t, hmq]
  have hnum : 0 < q.num := Rat.num_pos.mpr hqpos
  have ha1 : 1 ≤ q.num.toNat := by omega
  have hden1 : 1 ≤ q.den := Nat.pos_of_ne_zero q.den_nz
  have hdenq : ((q.den : ℕ) : ℚ) ≠ 0 := by
    exact_mod_cast q.den_nz
  have h1 := Rat.num_div_den q
  rw [div_eq_iff hdenq] at h1
  have hcross : (q.num : ℚ) * 2 ^ t = (m : ℚ) * (q.den : ℚ) := by
    rw [h1, ← hq]
    ring
  have hint : q.num * 2 ^ t = (m : ℤ) * (q.den : ℤ) := by exact_mod_cast hcross
  have h3 : ((q.num.toNat : ℕ) : ℤ) = q.num := Int.toNat_of_nonneg hnum.le
  have hnatc : q.num.toNat * 2 ^ t = m * q.den := by
    have h4 : ((q.num.toNat * 2 ^ t : ℕ) : ℤ) = ((m * q.den : ℕ) : ℤ) := by
      rw [Nat.cast_mul, Nat.cast_mul, Nat.cast_pow, h3]
      exact_mod_cast hint
    exact_mod_cast h4
  have habs : q.num.natAbs = q.num.toNat := by omega
  have hcop : Nat.Coprime q.num.toNat q.den := by
    have hr := q.reduced
    rwa [habs] at hr
  have hbdvd : q.den ∣ q.num.toNat * 2 ^ t := ⟨m, by rw [hnatc]; exact Nat.mul_comm m q.den⟩
  have hbpow : q.den ∣ 2 ^ t := Nat.Coprime.dvd_of_dvd_mul_left hcop.symm hbdvd
  obtain ⟨s, hsle, hsb⟩ := (Nat.dvd_prime_pow Nat.prime_two).mp hbpow
  have hale : q.num.toNat ≤ m := by
    have h2s : 0 < 2 ^ s := by positivity
    have hsplit : (2 : ℕ) ^ t = 2 ^ (t - s) * 2 ^ s := by
      rw [← pow_add]
      congr 1
      omega
    have h5 : q.num.toNat * 2 ^ (t - s) * 2 ^ s = m * 2 ^ s := by
      rw [Nat.mul_assoc, ← hsplit, hnatc, hsb]
    have h6 : q.num.toNat * 2 ^ (t - s) = m := Nat.eq_of_mul_eq_mul_right h2s h5
    calc q.num.toNat = q.num.toNat * 1 := (Nat.mul_one _).symm
      _ ≤ q.num.toNat * 2 ^ (t - s) := Nat.mul_le_mul le_rfl Nat.one_le_two_pow
      _ = m := h6
  have hltn : q.num.toNat < 2 ^ 53 := lt_of_le_of_lt hale hlt
  have h53 : bitlen q.num.toNat ≤ 53 := bitlen_le _ 53 ha1 hltn
  have hsbit : s + 1 ≤ bitlen q.den := by
    have := lt_bitlen q.den s hden1 (by rw [hsb])
    omega
  have huge : 52 + bitlen q.den ≤ flU q.num.toNat q.den := by
    rw [flU]
    split_ifs
    · omega
    · omega
  have hBeq : flB q.num.toNat q.den = 2 ^ (s + bitlen q.num.toNat) := by
    rw [flB, hsb, ← pow_add]
  have hdvd2 : flB q.num.toNat q.den ∣ flA q.num.toNat q.den := by
    have hpow2 : (2 : ℕ) ^ (s + bitlen q.num.toNat) ∣ 2 ^ flU q.num.toNat q.den :=
      pow_dvd_pow 2 (by omega)
    rw [hBeq, flA]
    exact hpow2.mul_left _
  have hfe : flPosNat q.num.toNat q.den = mkRat q.num.toNat q.den :=
    flPosNat_exact _ _ hden1 hdvd2
  have hmk2 : mkRat ((q.num.toNat : ℕ) : ℤ) q.den = q := by
    rw [h3]
    exact Rat.mkRat_self q
  rw [flQ_pos_eq q hnum, hfe, hmk2]

theorem qLim_eq : qLim = (2 : ℚ) ^ 1024 := by
  rw [qLim, Rat.mkRat_one]
  push_cast
  norm_num

/-- On positive finite operands, `mulD` returns either the correctly
rounded finite product or an overflow to `+∞`. -/
theorem mulD_pos (x y : ℚ) (hx : 0 < x) (hy : 0 < y) :
    (mulD x y = .posInf ∧ (2 : ℚ) ^ 1024 ≤ x * y * (1 + 1 / 2 ^ 53)) ∨
    ∃ t : ℚ, mulD x y = .real t ∧
      x * y * (1 - 1 / 2 ^ 53) ≤ t ∧ t ≤ x * y * (1 + 1 / 2 ^ 53) := by
  have hp : 0 < x * y := mul_pos hx hy
  have hqm : qMul x y = x * y := qMul_eq x y
  obtain ⟨hlo, hhi⟩ := flQ_bounds (x * y) hp
  have hflpos : 0 < flQ (x * y) := lt_of_lt_of_le (mul_pos hp (by norm_num)) hlo
  have hL0 : (0 : ℚ) < qLim := by
    rw [qLim_eq]
    positivity
  have hc1 : Rat.blt (qNeg qLim) (flQ (x * y)) = true := by
    rw [rat_blt_iff, qNeg_eq]
    linarith
  rw [mulD, hqm]
  rw [if_neg (by simp [hc1])]
  by_cases h2 : Rat.blt (flQ (x * y)) qLim = false
  · rw [if_pos h2]
    left
    refine ⟨rfl, ?_⟩
    have hge : qLim ≤ flQ (x * y) := by
      by_contra hcl
      push_neg at hcl
      rw [(rat_blt_iff _ _).mpr hcl] at h2
      exact Bool.noConfusion h2
    rw [qLim_eq] at hge
    linarith
  · rw [if_neg h2]
    right
    exact ⟨flQ (x * y), rfl, hlo, hhi⟩

theorem mkRatNat_eq (n : Nat) : (mkRat (n : ℤ) 1 : ℚ) = (n : ℚ) := by
  rw [Rat.mkRat_one]
  push_cast
  ring

theorem mkRat_half_eq : (mkRat 1 2 : ℚ) = 1 / 2 := by
  rw [Rat.mkRat_eq_div]
  norm_num

theorem double07_eq_flQ : double07 = flQ (7 / 10 : ℚ) := by
  rw [double07]
  congr 1
  rw [Rat.mkRat_eq_div]
  norm_num

/-- Sanity check: the binary64 value of the literal `0.7` is
`3152519739159347 / 2^52`. -/
theorem double07_eq : double07 = mkRat 3152519739159347 4503599627370496 := by decide

theorem flQ_half : flQ (mkRat 1 2) = (1 : ℚ) / 2 := by
  rw [mkRat_half_eq]
  exact flQ_exact (1 / 2 : ℚ) 1 1 le_rfl (by norm_num) (by norm_num)

theorem flQ_natCast (n : Nat) (h : n < 2 ^ 53) : flQ (mkRat (n : ℤ) 1) = (n : ℚ) := by
  rw [mkRatNat_eq]
  rcases Nat.eq_zero_or_pos n with h0 | h1
  · subst h0
    have hz : ((0 : ℕ) : ℚ) = 0 := by norm_num
    rw [hz]
    decide
  · exact flQ_exact _ n 0 h1 h (by rw [pow_zero, mul_one])

/-- Sandwich for the numeric threshold: `0.7 * n` up to three factors
of `(1 ± 2^-53)`, or an overflow past `2^1024`. -/
theorem numericThreshold_bounds (n : Nat) (h1 : 1 ≤ n) :
    (numericThreshold n = .posInf ∧
      (2 : ℚ) ^ 1024 ≤ 7 / 10 * (n : ℚ) * (1 + 1 / 2 ^ 53) ^ 3) ∨
    ∃ t : ℚ, numericThreshold n = .real t ∧
      7 / 10 * (n : ℚ) * (1 - 1 / 2 ^ 53) ^ 3 ≤ t ∧
      t ≤ 7 / 10 * (n : ℚ) * (1 + 1 / 2 ^ 53) ^ 3 := by
  have hn0 : (0 : ℚ) < (n : ℚ) := by
    have h1' : 0 < n := h1
    exact_mod_cast h1'
  have he0 : (0 : ℚ) < 1 - 1 / 2 ^ 53 := by norm_num
  have he1 : (0 : ℚ) < 1 + 1 / 2 ^ 53 := by norm_num
  obtain ⟨hx1, hx2⟩ := flQ_bounds (n : ℚ) hn0
  obtain ⟨hd1, hd2⟩ := flQ_bounds (7 / 10 : ℚ) (by norm_num)
  rw [← double07_eq_flQ] at hd1 hd2
  have hx0 : 0 < flQ (n : ℚ) := lt_of_lt_of_le (mul_pos hn0 he0) hx1
  have hd0 : 0 < double07 := lt_of_lt_of_le (by norm_num) hd1
  have hup : flQ (n : ℚ) * double07 * (1 + 1 / 2 ^ 53) ≤
      7 / 10 * (n : ℚ) * (1 + 1 / 2 ^ 53) ^ 3 := by
    have hA : flQ (n : ℚ) * double07 ≤
        ((n : ℚ) * (1 + 1 / 2 ^ 53)) * (7 / 10 * (1 + 1 / 2 ^ 53)) :=
      mul_le_mul hx2 hd2 hd0.le (by positivity)
    calc flQ (n : ℚ) * double07 * (1 + 1 / 2 ^ 53)
        ≤ ((n : ℚ) * (1 + 1 / 2 ^ 53)) * (7 / 10 * (1 + 1 / 2 ^ 53)) * (1 + 1 / 2 ^ 53) :=
          mul_le_mul_of_nonneg_right hA he1.le
      _ = 7 / 10 * (n : ℚ) * (1 + 1 / 2 ^ 53) ^ 3 := by ring
  have hlow : 7 / 10 * (n : ℚ) * (1 - 1 / 2 ^ 53) ^ 3 ≤
      flQ (n : ℚ) * double07 * (1 - 1 / 2 ^ 53) := by
    have hA : ((n : ℚ) * (1 - 1 / 2 ^ 53)) * (7 / 10 * (1 - 1 / 2 ^ 53)) ≤
        flQ (n : ℚ) * double07 :=
      mul_le_mul hx1 hd1 (by norm_num) hx0.le
    calc 7 / 10 * (n : ℚ) * (1 - 1 / 2 ^ 53) ^ 3
        = ((n : ℚ) * (1 - 1 / 2 ^ 53)) * (7 / 10 * (1 - 1 / 2 ^ 53)) * (1 - 1 / 2 ^ 53) := by
          ring
      _ ≤ flQ (n : ℚ) * double07 * (1 - 1 / 2 ^ 53) :=
          mul_le_mul_of_nonneg_right hA he0.le
  rcases mulD_pos (flQ (n : ℚ)) double07 hx0 hd0 with ⟨hinf, hb⟩ | ⟨t, ht, ht1, ht2⟩
  · left
    refine ⟨?_, ?_⟩
    · rw [numericThreshold, mkRatNat_eq]
      exact hinf
    · calc (2 : ℚ) ^ 1024 ≤ flQ (n : ℚ) * double07 * (1 + 1 / 2 ^ 53) := hb
        _ ≤ 7 / 10 * (n : ℚ) * (1 + 1 / 2 ^ 53) ^ 3 := hup
  · right
    refine ⟨t, ?_, ?_, ?_⟩
    · rw [numericThreshold, mkRatNat_eq]
      exact ht
    · calc 7 / 10 * (n : ℚ) * (1 - 1 / 2 ^ 53) ^ 3
          ≤ flQ (n : ℚ) * double07 * (1 - 1 / 2 ^ 53) := hlow
        _ ≤ t := ht1
    · calc t ≤ flQ (n : ℚ) * double07 * (1 + 1 / 2 ^ 53) := ht2
        _ ≤ 7 / 10 * (n : ℚ) * (1 + 1 / 2 ^ 53) ^ 3 := hup

/-- Below `2^53` rows the date threshold `n * 0.5` is exact. -/
theorem dateThreshold_exact (n : Nat) (h : n < 2 ^ 53) :
    dateThreshold n = .real ((n : ℚ) / 2) := by
  rw [dateThreshold, mulD, flQ_natCast n h, flQ_half, qMul_eq]
  have hprod : (n : ℚ) * (1 / 2) = (n : ℚ) / 2 := by ring
  rw [hprod]
  have hfl : flQ ((n : ℚ) / 2) = (n : ℚ) / 2 := by
    rcases Nat.eq_zero_or_pos n with h0 | h1
    · subst h0
      have hz : ((0 : ℕ) : ℚ) / 2 = 0 := by norm_num
      rw [hz]
      decide
    · exact flQ_exact _ n 1 h1 h (by rw [pow_one]; exact div_mul_cancel₀ _ (by norm_num))
  rw [hfl]
  have hc1 : Rat.blt (qNeg qLim) ((n : ℚ) / 2) = true := by
    rw [rat_blt_iff, qNeg_eq, qLim_eq]
    have h2p : (0 : ℚ) < 2 ^ 1024 := by positivity
    have hn0 : (0 : ℚ) ≤ (n : ℚ) := Nat.cast_nonneg n
    linarith
  have hc2 : Rat.blt ((n : ℚ) / 2) qLim = true := by
    rw [rat_blt_iff, qLim_eq]
    have hn2 : (n : ℚ) < 2 ^ 53 := by exact_mod_cast h
    have hpows : (2 : ℚ) ^ 53 ≤ 2 ^ 1024 := by norm_num
    linarith
  rw [if_neg (by simp [hc1]), if_neg (by simp [hc2])]

/-- For at least 143 rows the numeric threshold is at least 100 (or
overflows), so the capped votes can never exceed it. -/
theorem numericThreshold_unreachable (n : Nat) (h : 143 ≤ n) (v : ℚ) (hv : v ≤ 100) :
    JSNum.lt (numericThreshold n) (.real v) = false := by
  rcases numericThreshold_bounds n (by omega) with ⟨hinf, _⟩ | ⟨t, ht, ht1, _⟩
  · rw [hinf]
    rfl
  · rw [ht]
    have hn : (143 : ℚ) ≤ (n : ℚ) := by exact_mod_cast h
    have hc : (100 : ℚ) ≤ 7 / 10 * 143 * (1 - 1 / 2 ^ 53) ^ 3 := by norm_num
    have hmono : 7 / 10 * (143 : ℚ) * (1 - 1 / 2 ^ 53) ^ 3 ≤
        7 / 10 * (n : ℚ) * (1 - 1 / 2 ^ 53) ^ 3 := by
      have h7 : 7 / 10 * (143 : ℚ) ≤ 7 / 10 * (n : ℚ) := by linarith
      have hp : (0 : ℚ) ≤ (1 - 1 / 2 ^ 53) ^ 3 := by positivity
      exact mul_le_mul_of_nonneg_right h7 hp
    simp only [JSNum.lt, decide_eq_false_iff_not, not_lt]
    linarith

/-- For at least 200 rows the date threshold is at least 100 (or
overflows). -/
theorem dateThreshold_unreachable (n : Nat) (h : 200 ≤ n) (v : ℚ) (hv : v ≤ 100) :
    JSNum.lt (dateThreshold n) (.real v) = false := by
  by_cases hbig : n < 2 ^ 53
  · rw [dateThreshold_exact n hbig]
    have hn : (200 : ℚ) ≤ (n : ℚ) := by exact_mod_cast h
    simp only [JSNum.lt, decide_eq_false_iff_not, not_lt]
    linarith
  · push_neg at hbig
    have hn1 : 0 < n := by omega
    have hn0 : (0 : ℚ) < (n : ℚ) := by exact_mod_cast hn1
    have he0 : (0 : ℚ) < 1 - 1 / 2 ^ 53 := by norm_num
    obtain ⟨hx1, _⟩ := flQ_bounds (n : ℚ) hn0
    have hx0 : 0 < flQ (n : ℚ) := lt_of_lt_of_le (mul_pos hn0 he0) hx1
    rcases mulD_pos (flQ (n : ℚ)) (1 / 2 : ℚ) hx0 (by norm_num) with ⟨hinf, _⟩ | ⟨t, ht, ht1, _⟩
    · rw [dateThreshold, mkRatNat_eq, flQ_half, hinf]
      rfl
    · rw [dateThreshold, mkRatNat_eq, flQ_half, ht]
      have hnn : (2 : ℚ) ^ 53 ≤ (n : ℚ) := by exact_mod_cast hbig
      have hA : (2 : ℚ) ^ 53 * (1 - 1 / 2 ^ 53) ≤ flQ (n : ℚ) :=
        le_trans (mul_le_mul_of_nonneg_right hnn he0.le) hx1
      have hb1 : (2 : ℚ) ^ 53 * (1 - 1 / 2 ^ 53) * (1 / 2) * (1 - 1 / 2 ^ 53) ≤ t := by
        have hstep : (2 : ℚ) ^ 53 * (1 - 1 / 2 ^ 53) * (1 / 2) ≤ flQ (n : ℚ) * (1 / 2) :=
          mul_le_mul_of_nonneg_right hA (by norm_num)
        calc (2 : ℚ) ^ 53 * (1 - 1 / 2 ^ 53) * (1 / 2) * (1 - 1 / 2 ^ 53)
            ≤ flQ (n : ℚ) * (1 / 2) * (1 - 1 / 2 ^ 53) :=
              mul_le_mul_of_nonneg_right hstep he0.le
          _ ≤ t := ht1
      have h100 : (100 : ℚ) ≤ t := by
        have hc : (100 : ℚ) ≤ (2 : ℚ) ^ 53 * (1 - 1 / 2 ^ 53) * (1 / 2) * (1 - 1 / 2 ^ 53) := by
          norm_num
        linarith
      simp only [JSNum.lt, decide_eq_false_iff_not, not_lt]
      linarith

set_option maxRecDepth 100000 in
/-- C2 counterexample: on 90 rows of which 63 vote numeric, the exact
70% rule compares `63 > 63` and classifies the column text, but the
program computes `90 * 0.7 = 62.99999999999999` in binary64, so 63
votes exceed the threshold and the column is classified numeric. -/
theorem C2_cex :
    classifyColumn (fun _ => false)
      (List.replicate 63 [("a", Value.num (mkRat 1 1))] ++
        List.replicate 27 [("a", Value.str "x")]) "a" = .numeric ∧
    claimClassifyColumn (fun _ => false)
      (List.replicate 63 [("a", Value.num (mkRat 1 1))] ++
        List.replicate 27 [("a", Value.str "x")]) "a" = .text := by
  exact ⟨by decide, by decide⟩

set_option maxRecDepth 100000 in
/-- C2 (amended): schema inference counts null and type votes over
only the first `min(100, rowCount)` rows but compares them against
thresholds computed from the full row count in IEEE double precision:
`rowCount * 0.7` for numeric — so the effective cutoff is 70% only up
to a relative error of `(1 ± 2^-53)^3`, and can fall strictly below
the exact rule, as at 90 rows — and `rowCount * 0.5` for date, which
is exact for any row count below `2^53`; numeric takes priority over
date over text; consequently no column is classified numeric on
datasets of at least 143 rows, and none date on at least 200 rows. -/
theorem C2_classify_thresholds :
    ∀ (dp : String → Bool) (data : List Row) (col : String),
      numericVotes data col ≤ min 100 data.length ∧
      dateVotes dp data col ≤ min 100 data.length ∧
      (7 / 10 * (data.length : ℚ) * (1 + 1 / 2 ^ 53) ^ 3 < (numericVotes data col : ℚ) →
        classifyColumn dp data col = .numeric) ∧
      (classifyColumn dp data col = .numeric →
        7 / 10 * (data.length : ℚ) * (1 - 1 / 2 ^ 53) ^ 3 < (numericVotes data col : ℚ)) ∧
      (data.length < 2 ^ 53 →
        (classifyColumn dp data col = .date ↔
          classifyColumn dp data col ≠ .numeric ∧
            1 / 2 * (data.length : ℚ) < (dateVotes dp data col : ℚ))) ∧
      (143 ≤ data.length → classifyColumn dp data col ≠ .numeric) ∧
      (200 ≤ data.length → classifyColumn dp data col ≠ .date) := by
  intro dp data col
  have hsample : (sampleRows data).length = min 100 data.length := List.length_take 100 data
  have hnv : numericVotes data col ≤ min 100 data.length := by
    rw [← hsample]
    exact List.length_filter_le _ _
  have hdv : dateVotes dp data col ≤ min 100 data.length := by
    rw [← hsample]
    exact List.length_filter_le _ _
  have hcastN : (mkRat ((numericVotes data col : ℕ) : ℤ) 1 : ℚ) = (numericVotes data col : ℚ) :=
    mkRatNat_eq _
  have hcastD : (mkRat ((dateVotes dp data col : ℕ) : ℤ) 1 : ℚ) = (dateVotes dp data col : ℚ) :=
    mkRatNat_eq _
  refine ⟨hnv, hdv, ?_, ?_, ?_, ?_, ?_⟩
  · intro hlt
    have h100 : (numericVotes data col : ℚ) ≤ 100 := by
      have hle : numericVotes data col ≤ 100 := le_trans hnv (min_le_left _ _)
      exact_mod_cast hle
    have h1 : 1 ≤ data.length := by
      by_contra hc
      push_neg at hc
      have h0 : data.length = 0 := by omega
      have hv0 : numericVotes data col = 0 := by
        have h' := hnv
        rw [h0] at h'
        omega
      rw [h0, hv0] at hlt
      norm_num at hlt
    rcases numericThreshold_bounds data.length h1 with ⟨hinf, hbound⟩ | ⟨t, ht, ht1, ht2⟩
    · exfalso
      have habs : (2 : ℚ) ^ 1024 ≤ 100 := by
        calc (2 : ℚ) ^ 1024 ≤ 7 / 10 * (data.length : ℚ) * (1 + 1 / 2 ^ 53) ^ 3 := hbound
          _ ≤ 100 := le_trans (le_of_lt hlt) h100
      norm_num at habs
    · have hc1 : JSNum.lt (numericThreshold data.length)
          (.real (mkRat (numericVotes data col) 1)) = true := by
        rw [ht]
        simp only [JSNum.lt, hcastN, decide_eq_true_eq]
        linarith
      rw [classifyColumn, if_pos hc1]
  · intro heq
    rw [classifyColumn] at heq
    by_cases hc1 : JSNum.lt (numericThreshold data.length)
        (.real (mkRat (numericVotes data col) 1)) = true
    · rcases Nat.eq_zero_or_pos data.length with h0 | h1
      · exfalso
        have hth0 : numericThreshold 0 = .real 0 := by decide
        rw [h0, hth0] at hc1
        simp only [JSNum.lt, hcastN, decide_eq_true_eq] at hc1
        have hvpos : 0 < numericVotes data col := by exact_mod_cast hc1
        have h' := hnv
        rw [h0] at h'
        omega
      · rcases numericThreshold_bounds data.length h1 with ⟨hinf, _⟩ | ⟨t, ht, ht1, ht2⟩
        · rw [hinf] at hc1
          exact absurd hc1 (by simp [JSNum.lt])
        · rw [ht] at hc1
          simp only [JSNum.lt, hcastN, decide_eq_true_eq] at hc1
          linarith
    · rw [if_neg hc1] at heq
      split at heq
      · exact absurd heq (by decide)
      · exact absurd heq (by decide)
  · intro hbig
    have hlt2eq : JSNum.lt (dateThreshold data.length)
        (.real (mkRat (dateVotes dp data col) 1)) = true ↔
        1 / 2 * (data.length : ℚ) < (dateVotes dp data col : ℚ) := by
      rw [dateThreshold_exact data.length hbig]
      simp only [JSNum.lt, hcastD, decide_eq_true_eq]
      constructor
      · intro hlt'
        linarith
      · intro hlt'
        linarith
    rw [classifyColumn]
    by_cases hc1 : JSNum.lt (numericThreshold data.length)
        (.real (mkRat (numericVotes data col) 1)) = true
    · rw [if_pos hc1]
      constructor
      · intro hne
        exact absurd hne (by decide)
      · rintro ⟨hne, _⟩
        exact absurd rfl hne
    · rw [if_neg hc1]
      by_cases hc2 : JSNum.lt (dateThreshold data.length)
          (.real (mkRat (dateVotes dp data col) 1)) = true
      · rw [if_pos hc2]
        constructor
        · intro _
          exact ⟨by decide, hlt2eq.mp hc2⟩
        · intro _
          rfl
      · rw [if_neg hc2]
        constructor
        · intro hne
          exact absurd hne (by decide)
        · rintro ⟨_, hlt'⟩
          exact absurd (hlt2eq.mpr hlt') hc2
  · intro hlen heq
    have hvq : (mkRat (numericVotes data col) 1 : ℚ) ≤ 100 := by
      rw [hcastN]
      have hle : numericVotes data col ≤ 100 := le_trans hnv (min_le_left _ _)
      exact_mod_cast hle
    have hflat := numericThreshold_unreachable data.length hlen _ hvq
    rw [classifyColumn, hflat, if_neg Bool.false_ne_true] at heq
    split at heq
    · exact absurd heq (by decide)
    · exact absurd heq (by decide)
  · intro hlen heq
    have hvq : (mkRat (dateVotes dp data col) 1 : ℚ) ≤ 100 := by
      rw [hcastD]
      have hle : dateVotes dp data col ≤ 100 := le_trans hdv (min_le_left _ _)
      exact_mod_cast hle
    have hflat := dateThreshold_unreachable data.length hlen _ hvq
    rw [classifyColumn, hflat] at heq
    split at heq
    · exact absurd heq (by decide)
    · rw [if_neg Bool.false_ne_true] at heq
      exact absurd heq (by decide)

theorem C2_classify_thresholds_witness :
    classifyColumn (fun _ => false)
      (List.replicate 143 [("a", Value.num (mkRat 1 1))]) "a" ≠ .numeric ∧
    classifyColumn (fun _ => false)
      (List.replicate 200 [("a", Value.num (mkRat 1 1))]) "a" ≠ .date :=
  ⟨(C2_classify_thresholds (fun _ => false)
      (List.replicate 143 [("a", Value.num (mkRat 1 1))]) "a").2.2.2.2.2.1
       (le_of_eq (List.length_replicate 143 _).symm),
   (C2_classify_thresholds (fun _ => false)
      (List.replicate 200 [("a", Value.num (mkRat 1 1))]) "a").2.2.2.2.2.2
       (le_of_eq (List.length_replicate 200 _).symm)⟩

/-- C7: the transformer returns an empty series (never an error) when
the x-axis is unset, or when the y-axis is unset for any non-pie chart;
and on the empty dataset schema inference/profiling return the empty
result and every chart request returns the empty series. -/
theorem C7_degenerate_inputs :
    (∀ (data : List Row) (ct y g a : String), chartData data ct "" y g a = []) ∧
    (∀ (data : List Row) (ct x g a : String), ct ≠ "pie" →
      chartData data ct x "" g a = []) ∧
    (∀ dp : String → Bool, analyze dp [] = none) ∧
    (∀ ct x y g a : String, chartData [] ct x y g a = []) := by
  refine ⟨?_, ?_, ?_, ?_⟩
  · intro data ct y g a
    simp [chartData]
  · intro data ct x g a hct
    by_cases hx : x = ""
    · simp [chartData, hx]
    · by_cases hsc : ct = "scatter" <;> simp [chartData, hx, hct, hsc]
  · intro dp
    rfl
  · intro ct x y g a
    by_cases hx : x = ""
    · simp [chartData, hx]
    · by_cases hp : ct = "pie"
      · simp [chartData, hx, hp, pieSeries, pieEntries, sortOrd]
      · by_cases hsc : ct = "scatter"
        · by_cases hy : y = "" <;>
            simp [chartData, hx, hp, hsc, hy, scatterSeries]
        · by_cases hy : y = ""
          · simp [chartData, hx, hp, hsc, hy]
          · by_cases hg : g = "" <;>
              simp [chartData, hx, hp, hsc, hy, hg, groupedSeries, groupedEntries,
                ungroupedSeries, sortOrd]

theorem C7_degenerate_inputs_witness :
    chartData [[("a", Value.num (mkRat 1 1))]] "bar" "x" "" "" "sum" = [] :=
  C7_degenerate_inputs.2.1 [[("a", Value.num (mkRat 1 1))]] "bar" "x" "" "sum" (by decide)

theorem numericValues_ne_nan (data : List Row) (col : String) :
    ∀ v ∈ numericValues data col, v ≠ .nan := by
  intro v hv
  have := (List.mem_filter.mp hv).2
  cases v <;> simp_all [JSNum.isNaNb]

/-- The ascending sort used by the profiler is pairwise-sorted on
NaN-free inputs. -/
theorem sortAsc_pairwise (l : List JSNum) (h : ∀ v ∈ l, v ≠ .nan) :
    (sortOrd preAsc l).Pairwise (fun p q => JSNum.lt q p = false) :=
  pairwise_sortOrd preAsc (fun v => v ≠ JSNum.nan)
    (fun _ _ hab => JSNum.lt_asymm' hab)
    (fun _ b _ _ hb _ h1 h2 => JSNum.lt_negtrans hb h2 h1)
    l h

/-- C6: for every column with at least one parseable numeric value, the
profiler computes over the whole dataset: statistics are taken after
dropping non-parseable values, min/max are the ends of the
ascending-sorted values, mean is the arithmetic sum divided by the
count, and the median is the single element at index
`floor(count / 2)` of the sorted sequence; in particular the column
`[1,2,3,4]` yields min 1, max 4, mean 5/2, median 3. -/
theorem C6_profiler_stats :
    (∀ (data : List Row) (col : String), numericValues data col ≠ [] →
      statsFor data col = some
        { min := (sortOrd preAsc (numericValues data col)).headD (.real 0)
          max := (sortOrd preAsc (numericValues data col)).getLastD .nan
          mean := (sumJS (numericValues data col)).divN (numericValues data col).length
          median := (sortOrd preAsc (numericValues data col)).getD
            ((numericValues data col).length / 2) (.real 0)
          count := (numericValues data col).length }) ∧
    statsFor [[("v", Value.num (mkRat 1 1))], [("v", Value.num (mkRat 2 1))],
              [("v", Value.num (mkRat 3 1))], [("v", Value.num (mkRat 4 1))]] "v" =
      some { min := .real (mkRat 1 1), max := .real (mkRat 4 1),
             mean := .real (mkRat 5 2), median := .real (mkRat 3 1), count := 4 } := by
  constructor
  · intro data col hne
    have hnn : ∀ v ∈ numericValues data col, v ≠ .nan := numericValues_ne_nan data col
    have hnnS : ∀ v ∈ sortOrd preAsc (numericValues data col), v ≠ .nan :=
      fun v hv => hnn v ((mem_sortOrd preAsc _ v).mp hv)
    have hpw := sortAsc_pairwise (numericValues data col) hnn
    have hneS : sortOrd preAsc (numericValues data col) ≠ [] := by
      intro h
      exact hne (List.length_eq_zero.mp
        ((length_sortOrd preAsc _).symm.trans (by rw [h, List.length_nil])))
    have hlen : (sortOrd preAsc (numericValues data col)).length =
        (numericValues data col).length := length_sortOrd preAsc _
    rw [statsFor]
    rw [if_neg (by simpa [List.isEmpty_iff] using hne)]
    dsimp only
    congr 1
    rw [Stats.mk.injEq]
    refine ⟨?_, ?_, ?_, ?_, rfl⟩
    · exact foldl_minJ_sorted _ hneS hnnS hpw
    · exact foldl_maxJ_sorted _ hneS hnnS hpw
    · rw [sumJS_sortOrd, hlen]
    · rw [hlen]
  · decide

theorem C6_profiler_stats_witness :
    numericValues [[("v", Value.num (mkRat 9 1))], [("v", Value.str "zzz")],
      [("v", Value.num (mkRat 7 1))]] "v" ≠ [] ∧
    statsFor [[("v", Value.num (mkRat 9 1))], [("v", Value.str "zzz")],
      [("v", Value.num (mkRat 7 1))]] "v" = some
      { min := (sortOrd preAsc (numericValues [[("v", Value.num (mkRat 9 1))],
          [("v", Value.str "zzz")], [("v", Value.num (mkRat 7 1))]] "v")).headD (.real 0)
        max := (sortOrd preAsc (numericValues [[("v", Value.num (mkRat 9 1))],
          [("v", Value.str "zzz")], [("v", Value.num (mkRat 7 1))]] "v")).getLastD .nan
        mean := (sumJS (numericValues [[("v", Value.num (mkRat 9 1))],
          [("v", Value.str "zzz")], [("v", Value.num (mkRat 7 1))]] "v")).divN
          (numericValues [[("v", Value.num (mkRat 9 1))],
            [("v", Value.str "zzz")], [("v", Value.num (mkRat 7 1))]] "v").length
        median := (sortOrd preAsc (numericValues [[("v", Value.num (mkRat 9 1))],
          [("v", Value.str "zzz")], [("v", Value.num (mkRat 7 1))]] "v")).getD
          ((numericValues [[("v", Value.num (mkRat 9 1))],
            [("v", Value.str "zzz")], [("v", Value.num (mkRat 7 1))]] "v").length / 2) (.real 0)
        count := (numericValues [[("v", Value.num (mkRat 9 1))],
          [("v", Value.str "zzz")], [("v", Value.num (mkRat 7 1))]] "v").length } :=
  ⟨by decide, C6_profiler_stats.1 [[("v", Value.num (mkRat 9 1))],
    [("v", Value.str "zzz")], [("v", Value.num (mkRat 7 1))]] "v" (by decide)⟩

theorem map_filter_eq_filterMap (p : α → Bool) (f : α → β) :
    ∀ l : List α, (l.filter p).map f =
      l.filterMap (fun a => if p a then some (f a) else none) := by
  intro l
  induction l with
  | nil => rfl
  | cons a l ih =>
    by_cases hpa : p a = true
    · rw [List.filter_cons_of_pos hpa, List.map_cons, ih]
      simp [List.filterMap_cons, hpa]
    · rw [List.filter_cons_of_neg (by simpa using hpa), ih]
      simp [List.filterMap_cons, hpa]

/-- C4 counterexample: the string cell "Infinity" coerces to the
number +Infinity, which is not NaN, so the row passes the scatter
filter and produces a point whose x-coordinate is not finite, contrary
to the claim that all coordinates are finite. -/
theorem C4_cex :
    chartData [[("a", Value.str "Infinity"), ("b", Value.num (mkRat 1 1))]]
      "scatter" "a" "b" "" "sum" =
      [.scat ⟨.posInf, .real (mkRat 1 1), .str "Data Point"⟩] ∧
    finiteJS .posInf = false := by
  exact ⟨by decide, by decide⟩

/-- C4 (amended): for scatter specs with both axes set, the transformer
keeps exactly the rows whose x and y cells coerce to non-NaN numbers,
maps them in original order to {x, y, label: groupBy value or "Data
Point"}, and truncates to the first 1000 points; every coordinate is a
non-NaN number (it can be ±Infinity when a cell holds an Infinity
literal, so not necessarily finite). -/
theorem C4_scatter_series :
    (∀ (data : List Row) (x y g a : String), x ≠ "" → y ≠ "" →
      chartData data "scatter" x y g a =
        ((data.filterMap (fun r =>
          if !(jsToNum (getCol r x)).isNaNb && !(jsToNum (getCol r y)).isNaNb then
            some (SPoint.mk (jsToNum (getCol r x)) (jsToNum (getCol r y))
              (jsOr (getCol r g) (.str "Data Point")))
          else none)).take 1000).map CPoint.scat) ∧
    (∀ (data : List Row) (x y g : String),
      (scatterSeries data x y g).length ≤ 1000) ∧
    (∀ (data : List Row) (x y g : String), ∀ p ∈ scatterSeries data x y g,
      p.x ≠ .nan ∧ p.y ≠ .nan) := by
  refine ⟨?_, ?_, ?_⟩
  · intro data x y g a hx hy
    have hser : chartData data "scatter" x y g a =
        (scatterSeries data x y g).map CPoint.scat := by
      simp [chartData, hx, hy]
    rw [hser, scatterSeries, map_filter_eq_filterMap]
  · intro data x y g
    exact le_trans (List.length_take_le 1000 _) (le_refl 1000)
  · intro data x y g p hp
    have hp' := List.mem_of_mem_take hp
    obtain ⟨r, hr, rfl⟩ := List.mem_map.mp hp'
    have hcond := (List.mem_filter.mp hr).2
    have hx := (Bool.and_eq_true _ _).mp hcond
    constructor
    · have := hx.1
      cases hv : jsToNum (getCol r x) <;> simp_all [JSNum.isNaNb]
    · have := hx.2
      cases hv : jsToNum (getCol r y) <;> simp_all [JSNum.isNaNb]

theorem C4_scatter_series_witness :
    chartData [[("a", Value.num (mkRat 3 1)), ("b", Value.num (mkRat 4 1))],
               [("a", Value.str "oops"), ("b", Value.num (mkRat 9 1))]]
      "scatter" "a" "b" "" "sum" =
    (([[("a", Value.num (mkRat 3 1)), ("b", Value.num (mkRat 4 1))],
       [("a", Value.str "oops"), ("b", Value.num (mkRat 9 1))]].filterMap (fun r =>
      if !(jsToNum (getCol r "a")).isNaNb && !(jsToNum (getCol r "b")).isNaNb then
        some (SPoint.mk (jsToNum (getCol r "a")) (jsToNum (getCol r "b"))
          (jsOr (getCol r "") (.str "Data Point")))
      else none)).take 1000).map CPoint.scat :=
  C4_scatter_series.1
    [[("a", Value.num (mkRat 3 1)), ("b", Value.num (mkRat 4 1))],
     [("a", Value.str "oops"), ("b", Value.num (mkRat 9 1))]]
    "a" "b" "" "sum" (by decide) (by decide)

/-! ### C5: ungrouped bar/line series -/

/-- C5 counterexample: a row whose x cell is the number 0 (non-empty)
and whose y cell is numeric is dropped by the code (JS truthiness test
`row[xAxis]` rejects 0), while the claim keeps it. -/
theorem C5_cex :
    chartData [[("x", Value.num (mkRat 0 1)), ("y", Value.num (mkRat 1 1))]]
      "bar" "x" "y" "" "sum" ≠
    (claimUngroupedSeries [[("x", Value.num (mkRat 0 1)), ("y", Value.num (mkRat 1 1))]]
      "x" "y").map CPoint.lab := by decide

/-- C5 (amended): for bar/line specs without grouping, the transformer
keeps exactly the rows whose y cell coerces to a non-NaN number and
whose x cell is truthy (so rows with x equal to 0, false, null, the
empty string or missing are dropped, not merely empty ones), maps them
in original order to {label: String(x), value: Number(y)}, and
truncates to the first 50 points. -/
theorem C5_ungrouped_series :
    (∀ (data : List Row) (ct x y a : String), (ct = "bar" ∨ ct = "line") →
      x ≠ "" → y ≠ "" →
      chartData data ct x y "" a =
        ((data.filterMap (fun r =>
          if truthy (getCol r x) && !(jsToNum (getCol r y)).isNaNb then
            some (LPoint.mk (jsStringO (getCol r x)) (jsToNum (getCol r y)))
          else none)).take 50).map CPoint.lab) ∧
    (∀ (data : List Row) (x y : String), (ungroupedSeries data x y).length ≤ 50) := by
  refine ⟨?_, ?_⟩
  · intro data ct x y a hct hx hy
    have hser : chartData data ct x y "" a =
        (ungroupedSeries data x y).map CPoint.lab := by
      rcases hct with rfl | rfl <;> simp [chartData, hx, hy]
    rw [hser, ungroupedSeries, map_filter_eq_filterMap]
  · intro data x y
    exact le_trans (List.length_take_le 50 _) (le_refl 50)

theorem C5_ungrouped_series_witness :
    chartData [[("m", Value.str "Jan"), ("v", Value.num (mkRat 8 1))],
               [("m", Value.str "Feb"), ("v", Value.str "oops")]]
      "line" "m" "v" "" "sum" =
    (([[("m", Value.str "Jan"), ("v", Value.num (mkRat 8 1))],
       [("m", Value.str "Feb"), ("v", Value.str "oops")]].filterMap (fun r =>
      if truthy (getCol r "m") && !(jsToNum (getCol r "v")).isNaNb then
        some (LPoint.mk (jsStringO (getCol r "m")) (jsToNum (getCol r "v")))
      else none)).take 50).map CPoint.lab :=
  C5_ungrouped_series.1
    [[("m", Value.str "Jan"), ("v", Value.num (mkRat 8 1))],
     [("m", Value.str "Feb"), ("v", Value.str "oops")]]
    "line" "m" "v" "sum" (Or.inr rfl) (by decide) (by decide)

/-! ### C8: completeness percentage -/

/-- C8 counterexample: on the non-empty dataset whose single row has no
columns, `totalCells` is 0, the completeness computation divides 0 by 0
and yields NaN, which does not lie in [0, 100]. -/
theorem C8_cex :
    (analyze (fun _ => false) [[]]).map completenessOf = some JSNum.nan ∧
    inUnit100 JSNum.nan = false := by
  exact ⟨by decide, by decide⟩

/-- C8 (amended): for every non-empty dataset with at least one column,
the completeness percentage equals
`(totalCells - totalNulls) / totalCells * 100` with
`totalCells = rowCount * columnCount` and `totalNulls` the sum of the
sample-based per-column null counts; it lies in [0, 100] and equals 100
when no column has a missing sample value. (Without the column
hypothesis the value is NaN on zero-column rows.) -/
theorem C8_completeness :
    (∀ a : Analysis, completenessOf a =
      (JSNum.divN (.real (mkRat ((totalCells a : Int) - (totalNulls a : Int)) 1))
        (totalCells a)).mulN 100) ∧
    (∀ (dp : String → Bool) (data : List Row) (a : Analysis),
      analyze dp data = some a → 0 < a.columnCount →
      inUnit100 (completenessOf a) = true ∧
      (totalNulls a = 0 → completenessOf a = .real 100)) := by
  constructor
  · intro a
    rfl
  · intro dp data a h hc
    rw [analyze] at h
    by_cases hdata : data.isEmpty
    · rw [if_pos hdata] at h
      cases h
    · rw [if_neg hdata] at h
      dsimp only at h
      have ha := Option.some.inj h
      subst ha
      dsimp only [totalNulls, totalCells] at *
      have hL : 0 < data.length := by
        cases data with
        | nil => simp [List.isEmpty_nil] at hdata
        | cons r rs => simp
      set cols := (data.headD []).map Prod.fst with hcols
      have hnull_le : ∀ c ∈ cols, nullCountCol data c ≤ data.length := by
        intro c _
        refine le_trans (List.length_filter_le _ _) ?_
        rw [sampleRows, List.length_take]
        exact min_le_right _ _
      have hsum : ((cols.map (fun c => (c, nullCountCol data c))).map Prod.snd).sum ≤
          cols.length * data.length := by
        rw [List.map_map]
        have := List.sum_le_card_nsmul (cols.map (Prod.snd ∘ fun c => (c, nullCountCol data c)))
          data.length ?_
        · simpa [smul_eq_mul] using this
        · intro x hx
          obtain ⟨c, hcmem, rfl⟩ := List.mem_map.mp hx
          exact hnull_le c hcmem
      set N := ((cols.map (fun c => (c, nullCountCol data c))).map Prod.snd).sum with hN
      have hC : 0 < cols.length := hc
      have hcellpos : 0 < data.length * cols.length := Nat.mul_pos hL hC
      have hNle : N ≤ data.length * cols.length := by
        calc N ≤ cols.length * data.length := hsum
        _ = data.length * cols.length := Nat.mul_comm _ _
      obtain ⟨m, hm⟩ : ∃ m, data.length * cols.length = m + 1 :=
        ⟨data.length * cols.length - 1, (Nat.succ_pred_eq_of_pos hcellpos).symm⟩
      have hval : completenessOf
          { rowCount := data.length, columnCount := cols.length, columns := cols,
            columnTypes := cols.map (fun c => (c, classifyColumn dp data c)),
            nullCounts := cols.map (fun c => (c, nullCountCol data c)),
            numericColumns := cols.filter (fun c => decide (classifyColumn dp data c = .numeric)),
            numericStats := (cols.filter (fun c => decide (classifyColumn dp data c = .numeric))).filterMap
              (fun c => (statsFor data c).map (fun s => (c, s))) } =
          .real (qMulN (qDivN (mkRat (((m + 1 : ℕ) : Int) - (N : Int)) 1) (m + 1)) 100) := by
        rw [completenessOf]
        dsimp only [totalNulls, totalCells]
        rw [hm]
        rfl
      have hq : qMulN (qDivN (mkRat (((m + 1 : ℕ) : Int) - (N : Int)) 1) (m + 1)) 100 =
          (((m : ℚ) + 1) - (N : ℚ)) / ((m : ℚ) + 1) * 100 := by
        rw [qMulN_eq, qDivN_eq, Rat.mkRat_one]
        push_cast
        ring
      have hNle' : N ≤ m + 1 := hm ▸ hNle
      have hNq : (N : ℚ) ≤ (m : ℚ) + 1 := by exact_mod_cast hNle'
      have hpos : (0 : ℚ) < (m : ℚ) + 1 := by positivity
      have hv0 : (0 : ℚ) ≤ (((m : ℚ) + 1) - (N : ℚ)) / ((m : ℚ) + 1) * 100 := by
        have : (0 : ℚ) ≤ ((m : ℚ) + 1) - (N : ℚ) := by linarith
        positivity
      have hv100 : (((m : ℚ) + 1) - (N : ℚ)) / ((m : ℚ) + 1) * 100 ≤ 100 := by
        have hle1 : (((m : ℚ) + 1) - (N : ℚ)) / ((m : ℚ) + 1) ≤ 1 := by
          rw [div_le_one hpos]
          have : (0 : ℚ) ≤ (N : ℚ) := Nat.cast_nonneg N
          linarith
        nlinarith
      constructor
      · rw [hval, hq]
        simp only [inUnit100, Bool.and_eq_true, decide_eq_true_eq]
        exact ⟨hv0, hv100⟩
      · intro hN0
        have hN0' : N = 0 := hN0
        rw [hval, hq, hN0']
        push_cast
        rw [sub_zero, div_self (by positivity)]
        norm_num

set_option maxRecDepth 100000 in
theorem C8_completeness_witness :
    inUnit100 (completenessOf
      { rowCount := 1, columnCount := 1, columns := ["a"],
        columnTypes := [("a", ColType.numeric)],
        nullCounts := [("a", 0)],
        numericColumns := ["a"],
        numericStats := [("a", (⟨.real (mkRat 1 1), .real (mkRat 1 1),
          .real (mkRat 1 1), .real (mkRat 1 1), 1⟩ : Stats))] }) = true :=
  ((C8_completeness.2 (fun _ => false) [[("a", Value.num (mkRat 1 1))]] _
    (by decide) (by decide)).1)

/-! ### C9: CSV re-serialization -/

theorem intercalate_go_acc (s : String) :
    ∀ (l : List String) (acc b : String),
      String.intercalate.go (b ++ acc) s l = b ++ String.intercalate.go acc s l := by
  intro l
  induction l with
  | nil =>
    intro acc b
    rfl
  | cons a as ih =>
    intro acc b
    show String.intercalate.go (b ++ acc ++ s ++ a) s as =
      b ++ String.intercalate.go (acc ++ s ++ a) s as
    rw [String.append_assoc b acc s, String.append_assoc b (acc ++ s) a]
    exact ih (acc ++ s ++ a) b

theorem intercalate_cons (s a : String) :
    ∀ l : List String, l ≠ [] →
      String.intercalate s (a :: l) = a ++ s ++ String.intercalate s l := by
  intro l h
  match l with
  | [] => exact absurd rfl h
  | c :: cs =>
    show String.intercalate.go (a ++ s ++ c) s cs =
      (a ++ s) ++ String.intercalate.go c s cs
    exact intercalate_go_acc s cs c (a ++ s)

/-- C9 counterexample: a numeric cell is rendered by `JSON.stringify`
without quotes — the single data line of this CSV is `10`, containing
no quote character, contrary to "every cell value individually
quoted". -/
theorem C9_cex :
    convertToCSV [[("a", Value.num (mkRat 10 1))]] = "a\n10" ∧
    "a\n10".data.all (fun c => decide (c ≠ '"')) = true := by
  exact ⟨by decide, by decide⟩

/-- C9 (amended): for every non-empty row list, `convertToCSV` emits
the column names of the first row joined by commas, then one line per
row in which each cell is `JSON.stringify(value || '')` — string cells
(and falsy cells, replaced by the empty string) are quoted, while
numeric cells are rendered bare. -/
theorem C9_csv_format :
    (∀ data : List Row, data ≠ [] →
      convertToCSV data =
        String.intercalate "," ((data.headD []).map Prod.fst) ++ "\n" ++
          String.intercalate "\n"
            (data.map (csvRowLine ((data.headD []).map Prod.fst)))) ∧
    (∀ s : String, ∃ t, csvCell (some (.str s)) = "\"" ++ t ++ "\"") ∧
    (∀ q : ℚ, q ≠ 0 → csvCell (some (.num q)) = qToString q) ∧
    csvCell (some (.num 0)) = "\"\"" ∧
    csvCell none = "\"\"" := by
  refine ⟨?_, ?_, ?_, by decide, rfl⟩
  · intro data hne
    rw [convertToCSV, if_neg (by simpa [List.isEmpty_iff] using hne)]
    exact intercalate_cons "\n" _ _ (by simpa using hne)
  · intro s
    by_cases hs : s = ""
    · subst hs
      exact ⟨"", rfl⟩
    · refine ⟨String.join (s.data.map escapeChar), ?_⟩
      rw [csvCell, jsOr]
      rw [if_pos (by simpa [truthy] using hs)]
      rfl
  · intro q hq
    rw [csvCell, jsOr, if_pos (by simpa [truthy] using hq)]
    rfl

theorem C9_csv_format_witness :
    convertToCSV [[("a", Value.str "x"), ("b", Value.num (mkRat 10 1))]] =
      String.intercalate ","
        (([[("a", Value.str "x"), ("b", Value.num (mkRat 10 1))]].headD []).map Prod.fst) ++
        "\n" ++
        String.intercalate "\n"
          ([[("a", Value.str "x"), ("b", Value.num (mkRat 10 1))]].map
            (csvRowLine
              (([[("a", Value.str "x"), ("b", Value.num (mkRat 10 1))]].headD []).map
                Prod.fst))) :=
  C9_csv_format.1 [[("a", Value.str "x"), ("b", Value.num (mkRat 10 1))]] (by decide)
